import Mathlib

/-!
Verification development for the document-to-quiz pipeline.

This file gives a shallow embedding, in Lean, of the core functions of the
repository (document parser, AI orchestrator, cache writeback, JSON repair,
processing pipeline merge, and job-queue configuration), translated from the
TypeScript source, together with theorems settling the frozen claims about
the natural-language specification.

Conventions of the embedding:
* JavaScript strings are modelled as Lean `String` / `List Char`; regexes are
  replaced by explicit scanning functions implementing the same matching
  semantics (leftmost match, greedy/lazy quantifiers as in the source).
* `JSON.parse` is modelled by `jsonParseObj`, a strict parser for flat JSON
  objects whose values are strings or integers (the only shapes the code
  meaningfully consumes); any other input is modelled as a parse failure.
* Asynchronous effects (DB lookups, provider HTTP calls) are modelled by an
  explicit environment record; the orchestrator threads a call counter and
  returns a trace of provider `solveBatch` calls so that claims about the
  number of provider calls are statable.
* MD5 hashing of cache keys is modelled by an abstract deterministic key
  function: the writeback claims are independent of the concrete hash.
-/

-- ==================== Shared data model ====================

/-- Answer provenance, from `AnswerSource` in quiz.model.ts. -/
inductive AnswerSource where
  | StyleDetected
  | AI_Generated
  | Manual
deriving DecidableEq, Repr

/-- A parsed choice, from `ParsedChoice` (key, text, isVisuallyMarked). -/
structure ParsedChoice where
  key : String
  text : String
  isVisuallyMarked : Bool
deriving DecidableEq, Repr

/-- Intermediate parser record, from `SmartQuestion` in document.service.ts. -/
structure SmartQuestion where
  stem : String
  choices : List ParsedChoice
  sectionLabel : String
deriving DecidableEq, Repr

/-- A parsed question, from `ParsedQuestion` in quiz.types. -/
structure ParsedQuestion where
  index : Nat
  stem : String
  choices : List ParsedChoice
  sectionLabel : String
  correctAnswerKey : String
  source : AnswerSource
deriving DecidableEq, Repr

/-- Choice as sent to providers, from `ChoiceInput` in ai.types. -/
structure ChoiceInput where
  key : String
  text : String
deriving DecidableEq, Repr

/-- Question as sent to providers, from `QuestionInput` in ai.types. -/
structure QuestionInput where
  index : Nat
  stem : String
  choices : List ChoiceInput
  sectionLabel : String
deriving DecidableEq, Repr

/-- A provider answer, from `AIResponse` in ai.types. -/
structure AIResponse where
  index : Nat
  correctKey : String
  explanation : Option String
deriving DecidableEq, Repr

-- ==================== Character and string helpers ====================

/-- Model of the JavaScript regex class `\s` (the whitespace characters that
occur in practice: space, tab, newline, carriage return, vertical tab, form
feed, and no-break space). -/
def isWsChar (c : Char) : Bool :=
  [' ', '\t', '\n', '\r', '\x0b', '\x0c', ' '].contains c

/-- ASCII digit test, model of the regex class `\d`. -/
def isDigitChar (c : Char) : Bool :=
  '0' ≤ c && c ≤ '9'

/-- ASCII uppercase of a character; model of `toUpperCase` on the letters the
code actually handles (answer keys and section labels are ASCII letters). -/
def asciiUpperChar (c : Char) : Char :=
  if 'a' ≤ c && c ≤ 'z' then Char.ofNat (c.toNat - 32) else c

/-- ASCII lowercase of a character, extended with the Vietnamese uppercase
letters that occur in the parser's keyword patterns (a model of Unicode
simple case folding restricted to the characters those patterns contain). -/
def viLowerChar (c : Char) : Char :=
  if 'A' ≤ c && c ≤ 'Z' then Char.ofNat (c.toNat + 32)
  else if c = 'Â' then 'â'
  else if c = 'À' then 'à'
  else if c = 'Ầ' then 'ầ'
  else if c = 'Ư' then 'ư'
  else if c = 'Ơ' then 'ơ'
  else if c = 'Ụ' then 'ụ'
  else c

/-- Model of `String.prototype.toUpperCase` on ASCII data. -/
def asciiUpperS (s : String) : String :=
  String.mk (s.data.map asciiUpperChar)

/-- Collapse every run of whitespace to a single space, the model of
`replace(/\s+/g, " ")`. The Boolean argument records whether the previous
character was whitespace. -/
def collapseWsGo : Bool → List Char → List Char
  | _, [] => []
  | prevWs, c :: rest =>
    if isWsChar c then
      if prevWs then collapseWsGo true rest
      else ' ' :: collapseWsGo true rest
    else c :: collapseWsGo false rest

/-- Model of `replace(/\s+/g, " ")` on a character list. -/
def collapseWsL (l : List Char) : List Char :=
  collapseWsGo false l

/-- Model of `String.prototype.trim` on a character list. -/
def jsTrimL (l : List Char) : List Char :=
  ((l.dropWhile isWsChar).reverse.dropWhile isWsChar).reverse

/-- Case-insensitive keyword match at the head of the input: returns the
input after the keyword on success.  Models a literal alternative of a
case-insensitive regex. -/
def matchKeywordCI : List Char → List Char → Option (List Char)
  | [], s => some s
  | _ :: _, [] => none
  | k :: ks, c :: cs =>
    if viLowerChar c = viLowerChar k then matchKeywordCI ks cs else none

/-- Try a list of keyword alternatives in order (regex alternation). -/
def matchAnyKeywordCI (kws : List (List Char)) (s : List Char) : Option (List Char) :=
  match kws with
  | [] => none
  | k :: ks =>
    match matchKeywordCI k s with
    | some r => some r
    | none => matchAnyKeywordCI ks s

/-- Model of `^(?:Chương|Bài|Phần|Mục|CLO)\s*[\d.]+` (case-insensitive):
a section keyword, optional whitespace, then at least one digit or dot.
Returns the remainder after the match. -/
def matchSectionDecor (s : List Char) : Option (List Char) :=
  match matchAnyKeywordCI
      ["Chương".data, "Bài".data, "Phần".data, "Mục".data, "CLO".data] s with
  | none => none
  | some r =>
    let r1 := r.dropWhile isWsChar
    let digs := r1.takeWhile (fun c => isDigitChar c || c == '.')
    if digs.isEmpty then none else some (r1.drop digs.length)

/-- Model of `^\(CLO\s*\d+\.\d+\)` (case-insensitive). -/
def matchParenCLO (s : List Char) : Option (List Char) :=
  match s with
  | '(' :: r =>
    match matchKeywordCI ("CLO".data) r with
    | none => none
    | some r1 =>
      let r2 := r1.dropWhile isWsChar
      let d1 := r2.takeWhile isDigitChar
      if d1.isEmpty then none else
      match r2.drop d1.length with
      | '.' :: r3 =>
        let d2 := r3.takeWhile isDigitChar
        if d2.isEmpty then none else
        match r3.drop d2.length with
        | ')' :: r4 => some r4
        | _ => none
      | _ => none
  | _ => none

/-- Model of `^Câu\s*\d+[:.]` (case-insensitive). -/
def matchCauDecor (s : List Char) : Option (List Char) :=
  match matchKeywordCI ("Câu".data) s with
  | none => none
  | some r =>
    let r1 := r.dropWhile isWsChar
    let digs := r1.takeWhile isDigitChar
    if digs.isEmpty then none else
    match r1.drop digs.length with
    | ':' :: r2 => some r2
    | '.' :: r2 => some r2
    | _ => none

/-- Model of `^\d+[.)]`. -/
def matchNumDecor (s : List Char) : Option (List Char) :=
  let digs := s.takeWhile isDigitChar
  if digs.isEmpty then none else
  match s.drop digs.length with
  | '.' :: r => some r
  | ')' :: r => some r
  | _ => none

/-- Apply an anchored replace-with-empty once: `replace(/^pat/, "")`. -/
def stripOnce (m : List Char → Option (List Char)) (s : List Char) : List Char :=
  match m s with
  | some r => r
  | none => s

-- ==================== Document parser (document.service.ts) ====================

/-- Clean a raw stem, the model of the cleanup chain in `parseQuestionBlock`:
collapse whitespace, trim, then strip (each at most once, in order) a section
keyword decoration, a parenthesized CLO marker, a `Câu <n>.`/`Câu <n>:`
marker, and a leading `<n>.`/`<n>)`, then trim again. -/
def stemClean (raw : List Char) : List Char :=
  jsTrimL (stripOnce matchNumDecor (stripOnce matchCauDecor
    (stripOnce matchParenCLO (stripOnce matchSectionDecor
      (jsTrimL (collapseWsL raw))))))

/-- Model of `block.search(/\sA\./)`: splits the block at the first position
where a whitespace character is followed by `A.`; returns the part before the
match and the part from the match on. -/
def findAnchor : List Char → Option (List Char × List Char)
  | a :: b :: c :: rest =>
    if isWsChar a && b == 'A' && c == '.' then
      some ([], a :: b :: c :: rest)
    else
      match findAnchor (b :: c :: rest) with
      | some p => some (a :: p.1, p.2)
      | none => none
  | _ => none

/-- The uppercase choice keys matched by `[A-D]` in `parseQuestionBlock`'s
choice regex (the regex has no `i` flag). -/
def isChoiceKey (c : Char) : Bool :=
  c == 'A' || c == 'B' || c == 'C' || c == 'D'

/-- Lazy capture of a choice text: the shortest prefix of the input after
which the lookahead `\s[A-D]\.` matches (or the end of input is reached).
Returns the captured text and the remainder. -/
def captureChoiceText : List Char → List Char × List Char
  | [] => ([], [])
  | [a] => ([a], [])
  | [a, b] => ([a, b], [])
  | a :: b :: c :: rest =>
    if isWsChar a && isChoiceKey b && c == '.' then
      ([], a :: b :: c :: rest)
    else
      let p := captureChoiceText (b :: c :: rest)
      (a :: p.1, p.2)

/-- One step of the global scan of `/\s([A-D])\.\s+([\s\S]*?)(?=\s[A-D]\.|$)/g`
over the choices part of a block.  The fuel argument bounds the number of
scan steps; each step consumes at least one character, so `length + 1` fuel
is always sufficient. -/
def scanChoicesGo : Nat → List Char → List (Char × List Char)
  | 0, _ => []
  | fuel + 1, s =>
    match s with
    | c0 :: c1 :: c2 :: c3 :: rest =>
      if isWsChar c0 && isChoiceKey c1 && c2 == '.' && isWsChar c3 then
        let afterWs := (c3 :: rest).dropWhile isWsChar
        let p := captureChoiceText afterWs
        (c1, p.1) :: scanChoicesGo fuel p.2
      else
        scanChoicesGo fuel (c1 :: c2 :: c3 :: rest)
    | _ => []

/-- All matches of the choice regex over a character list. -/
def scanChoices (s : List Char) : List (Char × List Char) :=
  scanChoicesGo (s.length + 1) s

/-- Model of `parseQuestionBlock` in document.service.ts: anchor at the first
`\sA\.`, clean the stem, scan the choices, and require at least two choices
and a non-empty stem. -/
def parseQuestionBlock (block : String) (sect : String) : Option SmartQuestion :=
  match findAnchor block.data with
  | none => none
  | some (before, choicesPart) =>
    let stem := stemClean before
    let choices := (scanChoices choicesPart).map (fun kt =>
      ParsedChoice.mk (String.mk [asciiUpperChar kt.1])
        (String.mk (jsTrimL (collapseWsL kt.2))) false)
    if choices.length < 2 || stem.isEmpty then none
    else some (SmartQuestion.mk (String.mk stem) choices sect)

/-- Model of the per-question mapping in `parsePdf` / `parseTxt`: the parsed
question gets an empty `correctAnswerKey` and `source = AI_Generated`. -/
def txtFinalizeQuestion (idx : Nat) (q : SmartQuestion) : ParsedQuestion :=
  { index := idx + 1
    stem := q.stem
    choices := q.choices
    sectionLabel := q.sectionLabel
    correctAnswerKey := ""
    source := AnswerSource.AI_Generated }

/-- Model of the per-question mapping in `parseDocx` (lines 314-327): find
the first visually marked choice with `choices.find`; use its key as
`correctAnswerKey` (empty when none is marked) and set the source
accordingly. -/
def docxFinalizeQuestion (idx : Nat) (q : SmartQuestion) : ParsedQuestion :=
  let markedChoice := q.choices.find? (fun c => c.isVisuallyMarked)
  { index := idx + 1
    stem := q.stem
    choices := q.choices
    sectionLabel := q.sectionLabel
    correctAnswerKey :=
      match markedChoice with
      | some c => c.key
      | none => ""
    source :=
      match markedChoice with
      | some _ => AnswerSource.StyleDetected
      | none => AnswerSource.AI_Generated }

-- ==================== DOCX HTML question parsing (parseHtmlQuestionBlock) ====================

/-- Split the input at the first occurrence of a character; returns the part
before it and the part after it. -/
def splitAtChar (target : Char) : List Char → Option (List Char × List Char)
  | [] => none
  | c :: rest =>
    if c = target then some ([], rest)
    else
      match splitAtChar target rest with
      | some p => some (c :: p.1, p.2)
      | none => none

/-- One pass of `replace(/<[^>]*>/g, " ")`: at a `<` that is followed by a
later `>`, the whole tag up to that first `>` becomes one space; a `<` with
no closing `>` stays.  Each step consumes at least one character, so
`length + 1` fuel is always sufficient. -/
def stripTagsGo : Nat → List Char → List Char
  | 0, _ => []
  | fuel + 1, l =>
    match l with
    | [] => []
    | c :: rest =>
      if c = '<' then
        match splitAtChar '>' rest with
        | some p => ' ' :: stripTagsGo fuel p.2
        | none => '<' :: stripTagsGo fuel rest
      else c :: stripTagsGo fuel rest

/-- Model of `replace(/<[^>]*>/g, " ")`. -/
def stripTagsL (l : List Char) : List Char :=
  stripTagsGo (l.length + 1) l

/-- The choice keys matched by `[A-D]` under the HTML regexes' `i` flag. -/
def isHtmlChoiceKey (c : Char) : Bool :=
  ['A', 'B', 'C', 'D', 'a', 'b', 'c', 'd'].contains c

/-- Whether `\s*A\.\s+` (case-insensitive `A`) matches a prefix of the
input — the tail of the anchor pattern of `parseHtmlQuestionBlock`. -/
def htmlAnchorCore (t : List Char) : Bool :=
  match t.dropWhile isWsChar with
  | a :: '.' :: d :: _ => (a == 'A' || a == 'a') && isWsChar d
  | _ => false

/-- Whether the anchor `(?:^|\s|>|&nbsp;)\s*A\.\s+` matches at this
position (`atStart` records whether this is offset 0, where `^` applies). -/
def htmlAnchorMatchAt (atStart : Bool) (t : List Char) : Bool :=
  (atStart && htmlAnchorCore t) ||
  (match t with
   | c :: rest =>
     (if isWsChar c || c == '>' then htmlAnchorCore rest else false) ||
     (match matchKeywordCI ("&nbsp;".data) t with
      | some rest2 => htmlAnchorCore rest2
      | none => false)
   | [] => false)

/-- Model of `htmlBlock.search(/(?:^|\s|>|&nbsp;)\s*A\.\s+/i)`: split the
block at the leftmost position where the anchor matches. -/
def htmlFindAnchorGo : Bool → List Char → Option (List Char × List Char)
  | _, [] => none
  | atStart, c :: rest =>
    if htmlAnchorMatchAt atStart (c :: rest) then some ([], c :: rest)
    else
      match htmlFindAnchorGo false rest with
      | some p => some (c :: p.1, p.2)
      | none => none

/-- The `\s*([A-D])\.\s+` tail of the HTML choice pattern: skip
whitespace, read a (case-insensitive) key and its dot, require at least one
whitespace, and return the key with the capture start (after the greedy
`\s+`). -/
def keyHeadHtml (t : List Char) : Option (Char × List Char) :=
  match t.dropWhile isWsChar with
  | k :: '.' :: rest =>
    if isHtmlChoiceKey k then
      match rest with
      | d :: _ =>
        if isWsChar d then some (k, rest.dropWhile isWsChar) else none
      | [] => none
    else none
  | _ => none

/-- Whether the HTML choice pattern matches at this position, and with which
key and capture start; the prefix alternation `(?:^|\s|>|&nbsp;)` is tried
in order as the engine does. -/
def choiceMatchAtHtml (atStart : Bool) (t : List Char) : Option (Char × List Char) :=
  match (if atStart then keyHeadHtml t else none) with
  | some r => some r
  | none =>
    match t with
    | c :: rest =>
      if isWsChar c || c == '>' then keyHeadHtml rest
      else
        match matchKeywordCI ("&nbsp;".data) t with
        | some rest2 => keyHeadHtml rest2
        | none => none
    | [] => none

/-- The lookahead `(?=\s[A-D]\.\s+|>[A-D]\.\s+|&nbsp;[A-D]\.\s+)` of
the HTML choice pattern (the `$` alternative is the end-of-input case of
`htmlCaptureText`). -/
def htmlLookaheadAt (t : List Char) : Bool :=
  (match t with
   | a :: k :: '.' :: d :: _ =>
     (isWsChar a || a == '>') && isHtmlChoiceKey k && isWsChar d
   | _ => false) ||
  (match matchKeywordCI ("&nbsp;".data) t with
   | some (k :: '.' :: d :: _) => isHtmlChoiceKey k && isWsChar d
   | _ => false)

/-- Lazy capture of an HTML choice text: the shortest prefix after which the
lookahead matches, or everything to the end of input. -/
def htmlCaptureText : List Char → List Char × List Char
  | [] => ([], [])
  | c :: rest =>
    if htmlLookaheadAt (c :: rest) then ([], c :: rest)
    else
      let p := htmlCaptureText rest
      (c :: p.1, p.2)

/-- Global scan of the HTML choice regex: at each position try the pattern;
on a match take the lazy capture and continue after it, otherwise advance
one character.  A match consumes at least three characters, so `length + 1`
fuel is always sufficient. -/
def htmlScanChoicesGo : Nat → Bool → List Char → List (Char × List Char)
  | 0, _, _ => []
  | fuel + 1, atStart, t =>
    match choiceMatchAtHtml atStart t with
    | some (k, afterHead) =>
      (k, (htmlCaptureText afterHead).1) ::
        htmlScanChoicesGo fuel false (htmlCaptureText afterHead).2
    | none =>
      match t with
      | [] => []
      | _ :: rest => htmlScanChoicesGo fuel false rest

/-- All matches of the HTML choice regex over the choices part. -/
def htmlScanChoices (t : List Char) : List (Char × List Char) :=
  htmlScanChoicesGo (t.length + 1) true t

/-- Model of `^C\s*âu\s*\d+[:.]` (case-insensitive), the stray-space
variant of the `Câu` marker stripped only on the HTML path. -/
def matchCau2Decor (s : List Char) : Option (List Char) :=
  match s with
  | c :: r =>
    if viLowerChar c = 'c' then
      match matchKeywordCI ("âu".data) (r.dropWhile isWsChar) with
      | some r2 =>
        let r3 := r2.dropWhile isWsChar
        let digs := r3.takeWhile isDigitChar
        if digs.isEmpty then none
        else
          match r3.drop digs.length with
          | ':' :: r4 => some r4
          | '.' :: r4 => some r4
          | _ => none
      | none => none
    else none
  | [] => none

/-- Model of `^\d+[\.\\)]` as written on the HTML path: digits followed by
a dot, a backslash or a closing parenthesis. -/
def matchNumDecorHtml (s : List Char) : Option (List Char) :=
  let digs := s.takeWhile isDigitChar
  if digs.isEmpty then none
  else
    match s.drop digs.length with
    | '.' :: r => some r
    | '\\' :: r => some r
    | ')' :: r => some r
    | _ => none

/-- Clean a raw HTML stem, the model of the cleanup chain in
`parseHtmlQuestionBlock`: strip tags, collapse whitespace, trim, then strip
(each at most once, in order) the section keyword, parenthesized CLO,
`Câu <n>`, stray-space `C âu <n>` and `<n>.` decorations, then trim again. -/
def stemCleanHtml (raw : List Char) : List Char :=
  jsTrimL (stripOnce matchNumDecorHtml (stripOnce matchCau2Decor
    (stripOnce matchCauDecor (stripOnce matchParenCLO
      (stripOnce matchSectionDecor
        (jsTrimL (collapseWsL (stripTagsL raw))))))))

/-- Case-insensitive substring test, model of `/pat/i.test(s)` for a literal
pattern. -/
def containsSubCI (pat : List Char) : List Char → Bool
  | [] => (matchKeywordCI pat []).isSome
  | c :: rest => (matchKeywordCI pat (c :: rest)).isSome || containsSubCI pat rest

/-- Model of the visual-mark test
`/class="marked"|<strong>|<b>|<u>|✓/i.test(textWithTags)`. -/
def isMarkedHtml (t : List Char) : Bool :=
  containsSubCI ("class=\"marked\"".data) t || containsSubCI ("<strong>".data) t ||
  containsSubCI ("<b>".data) t || containsSubCI ("<u>".data) t ||
  containsSubCI ("✓".data) t

/-- Model of `parseHtmlQuestionBlock` in document.service.ts (lines 89-130):
anchor at the first `(?:^|\s|>|&nbsp;)\s*A\.\s+`, clean the stem from
the part before it, scan the choices with visual-mark detection, and require
at least two choices and a non-empty stem. -/
def parseHtmlQuestionBlock (htmlBlock : String) (sect : String) : Option SmartQuestion :=
  match htmlFindAnchorGo true htmlBlock.data with
  | none => none
  | some (before, choicesPart) =>
    let stem := stemCleanHtml before
    let choices := (htmlScanChoices choicesPart).map (fun kt =>
      ParsedChoice.mk (String.mk [asciiUpperChar kt.1])
        (String.mk (jsTrimL (collapseWsL (stripTagsL kt.2))))
        (isMarkedHtml kt.2))
    if choices.length < 2 || stem.isEmpty then none
    else some (SmartQuestion.mk (String.mk stem) choices sect)

-- ==================== Processing pipeline (quizUpload.middleware.ts) ====================

/-- Model of the JavaScript `x || d` fallback on an optional string: an
absent value and the empty string are both falsy. -/
def jsOrS (o : Option String) (d : String) : String :=
  match o with
  | none => d
  | some s => if s = "" then d else s

/-- Final question record persisted into the Quiz by the worker. -/
structure FinalQuestion where
  stem : String
  choices : List ParsedChoice
  correctAnswerKey : String
  explanation : String
  source : AnswerSource
  sectionLabel : String
deriving DecidableEq, Repr

/-- Model of `new Map(aiResult.responses.map(r => [r.index, r]))`: lookup by
index, with the last occurrence winning as for a JavaScript `Map`. -/
def respMapOf (rs : List AIResponse) : Nat → Option AIResponse :=
  fun i => rs.reverse.find? (fun r => r.index = i)

/-- Model of the per-question merge in `processQuizDocument` (lines 159-187):
visual mark takes precedence, then the orchestrator answer (uppercased), then
the literal fallback `"A"`.  The already-sanitized section label is passed in
as the code computes it just before building the record. -/
def buildFinalQuestion (q : ParsedQuestion) (idx : Nat)
    (respMap : Nat → Option AIResponse) (sanitizedSection : String) : FinalQuestion :=
  let parserIndex := idx + 1
  let aiResponse := respMap parserIndex
  let hasVisualMark := q.correctAnswerKey ≠ ""
  { stem := q.stem
    choices := q.choices
    correctAnswerKey :=
      if hasVisualMark then q.correctAnswerKey
      else jsOrS (aiResponse.map (fun r => asciiUpperS r.correctKey)) "A"
    explanation := jsOrS (aiResponse.bind (fun r => r.explanation)) ""
    source :=
      if hasVisualMark then AnswerSource.StyleDetected
      else
        match aiResponse with
        | some _ => AnswerSource.AI_Generated
        | none => AnswerSource.AI_Generated
    sectionLabel := sanitizedSection }

/-- Model of step 2 of `processQuizDocument` (lines 112-120): the question
list handed to the AI orchestrator is built from ALL parsed questions by
position, with the 1-based position as index.  The counter argument is the
0-based position of the head of the remaining list. -/
def buildQuestionsForAIGo (n : Nat) : List ParsedQuestion → List QuestionInput
  | [] => []
  | q :: rest =>
    { index := n + 1
      stem := q.stem
      choices := q.choices.map (fun c => ChoiceInput.mk c.key c.text)
      sectionLabel := q.sectionLabel } :: buildQuestionsForAIGo (n + 1) rest

/-- The provider input list built by the pipeline from the parsed document. -/
def buildQuestionsForAI (qs : List ParsedQuestion) : List QuestionInput :=
  buildQuestionsForAIGo 0 qs

-- ==================== JSON repair and response parsing (base provider) ====================

/-- Model of the scan loop of `repairJson`: walk the characters tracking an
escape flag and an `inQuotes` flag and count braces outside quotes; returns
the final open-brace balance and quote state.  As in the source, the quote
flag is updated before the brace test, and the brace balance may go
negative. -/
def repairScan : List Char → Bool → Bool → Int → Int × Bool
  | [], _, inQ, ob => (ob, inQ)
  | c :: rest, esc, inQ, ob =>
    let inQ' := if c == '"' && !esc then !inQ else inQ
    let ob' :=
      if !inQ' then
        if c == '\x7b' then ob + 1
        else if c == '\x7d' then ob - 1
        else ob
      else ob
    let esc' := c == '\\' && !esc
    repairScan rest esc' inQ' ob'

/-- Model of `replace(/,\s*$/, "")`: remove a trailing comma together with
any whitespace after it; leave the string unchanged when the character
before the trailing whitespace is not a comma. -/
def stripTrailingCommaL (l : List Char) : List Char :=
  match l.reverse.dropWhile isWsChar with
  | ',' :: rest => rest.reverse
  | _ => l

/-- Model of `repairJson` in the base provider (lines 216-250): trim; return
`"{}"` unless the string starts with `{`; scan braces and quotes; close an
unclosed quote; strip a trailing comma; append one `}` per open brace. -/
def repairJsonL (json : List Char) : List Char :=
  let repaired := jsTrimL json
  match repaired with
  | '\x7b' :: _ =>
    let sc := repairScan repaired false false 0
    let r1 := if sc.2 then repaired ++ ['"'] else repaired
    let r2 := stripTrailingCommaL r1
    r2 ++ List.replicate sc.1.toNat '\x7d'
  | _ => ['\x7b', '\x7d']

/-- String wrapper for `repairJsonL`. -/
def repairJson (s : String) : String :=
  String.mk (repairJsonL s.data)

/-- JSON value in a flat answer object: a string or an integer (the shapes
the providers' answer maps contain; anything else is modelled as a parse
failure of `jsonParseObj`). -/
inductive JVal where
  | jstr : String → JVal
  | jint : Int → JVal
deriving DecidableEq, Repr

/-- Drop leading JavaScript whitespace. -/
def skipWsL (l : List Char) : List Char :=
  l.dropWhile isWsChar

/-- The character mapped by a JSON escape sequence (`\u` is not supported by
the model). -/
def jsonEscTable : List (Char × Char) :=
  [('"', '"'), ('\\', '\\'), ('/', '/'), ('n', '\n'),
   ('t', '\t'), ('r', '\r'), ('b', '\x08'), ('f', '\x0c')]

def jsonEscChar (c : Char) : Option Char :=
  (jsonEscTable.find? (fun pc => pc.1 = c)).map (fun pc => pc.2)

/-- Parse the body of a JSON string after the opening quote; returns the
decoded characters and the input after the closing quote.  Raw control
characters are rejected as in strict `JSON.parse`. -/
def jsonStrGo : List Char → Option (List Char × List Char)
  | [] => none
  | '"' :: rest => some ([], rest)
  | '\\' :: c :: rest =>
    match jsonEscChar c with
    | some d =>
      match jsonStrGo rest with
      | some p => some (d :: p.1, p.2)
      | none => none
    | none => none
  | ['\\'] => none
  | c :: rest =>
    if c.toNat < 32 then none
    else
      match jsonStrGo rest with
      | some p => some (c :: p.1, p.2)
      | none => none

/-- Digits to a natural number. -/
def digitsToNat (ds : List Char) : Nat :=
  ds.foldl (fun a c => a * 10 + (c.toNat - 48)) 0

/-- Parse a JSON integer literal (strict grammar: optional minus, no leading
zeros; fractional or exponent parts are not supported by the model). -/
def jsonIntP (l : List Char) : Option (Int × List Char) :=
  let (neg, l1) :=
    match l with
    | '-' :: r => (true, r)
    | _ => (false, l)
  let digs := l1.takeWhile isDigitChar
  if digs.isEmpty then none
  else if digs.length > 1 && digs.headD '0' == '0' then none
  else
    let v : Int := Int.ofNat (digitsToNat digs)
    some (if neg then -v else v, l1.drop digs.length)

/-- Parse a JSON value (string or integer only). -/
def jsonValP (l : List Char) : Option (JVal × List Char) :=
  match l with
  | '"' :: r =>
    match jsonStrGo r with
    | some p => some (JVal.jstr (String.mk p.1), p.2)
    | none => none
  | _ =>
    match jsonIntP l with
    | some p => some (JVal.jint p.1, p.2)
    | none => none

/-- Parse the members of a JSON object, positioned at the first key; the
fuel bounds the number of members and `length + 1` is always sufficient
since each member consumes at least one character. -/
def jsonPairsGo : Nat → List Char → Option (List (String × JVal) × List Char)
  | 0, _ => none
  | fuel + 1, l =>
    match l with
    | '"' :: r =>
      match jsonStrGo r with
      | none => none
      | some (key, r2) =>
        match skipWsL r2 with
        | ':' :: r3 =>
          match jsonValP (skipWsL r3) with
          | none => none
          | some (v, r4) =>
            match skipWsL r4 with
            | ',' :: r5 =>
              match jsonPairsGo fuel (skipWsL r5) with
              | some (ps, rest) => some ((String.mk key, v) :: ps, rest)
              | none => none
            | '\x7d' :: r5 => some ([(String.mk key, v)], r5)
            | _ => none
        | _ => none
    | _ => none

/-- Model of `JSON.parse` restricted to flat objects with string keys and
string/integer values; any other input (arrays, nesting, fractional numbers,
top-level non-objects) is modelled as a parse failure. -/
def jsonParseObj (s : List Char) : Option (List (String × JVal)) :=
  match skipWsL s with
  | '\x7b' :: r =>
    match skipWsL r with
    | '\x7d' :: r2 => if (skipWsL r2).isEmpty then some [] else none
    | r1 =>
      match jsonPairsGo (r1.length + 1) r1 with
      | some (ps, rest) => if (skipWsL rest).isEmpty then some ps else none
      | none => none
  | _ => none

/-- Property lookup on a parsed JSON object: later duplicate keys overwrite
earlier ones, as for JavaScript objects. -/
def lookupLast (obj : List (String × JVal)) (k : String) : Option JVal :=
  (obj.reverse.find? (fun p => p.1 = k)).map (fun p => p.2)

/-- JavaScript truthiness of a flat JSON value. -/
def jvalTruthy : JVal → Bool
  | JVal.jstr s => s ≠ ""
  | JVal.jint n => n ≠ 0

/-- Model of `String(v)` on a flat JSON value. -/
def jvalToString : JVal → String
  | JVal.jstr s => s
  | JVal.jint n => toString n

/-- The backtick character (used by the markdown fence pattern). -/
def tickChar : Char := Char.ofNat 96

/-- Split the input at the first occurrence of three backticks; returns the
part before and the part after the three backticks. -/
def splitAtTicks : List Char → Option (List Char × List Char)
  | [] => none
  | c :: rest =>
    if c = tickChar && rest.take 2 = [tickChar, tickChar] then
      some ([], rest.drop 2)
    else
      match splitAtTicks rest with
      | some p => some (c :: p.1, p.2)
      | none => none

/-- Model of the markdown-fence extraction regex of `parseResponse`: on a
match, the capture is the (lazily minimal) text between the opening fence,
an optional case-insensitive `json` tag and optional whitespace, and the
next fence; with no complete fence the regex does not match. -/
def findFence (content : List Char) : Option (List Char) :=
  match splitAtTicks content with
  | none => none
  | some (_, after) =>
    let after1 :=
      match matchKeywordCI ("json".data) after with
      | some r => r
      | none => after
    match splitAtTicks (skipWsL after1) with
    | some (cap, _) => some cap
    | none => none

/-- The JSON stage of `parseResponse` (lines 160-183): extract the fenced
block if present, trim, attempt a direct parse, and on failure repair and
reparse. -/
def jsonStage (content : String) : Option (List (String × JVal)) :=
  let base :=
    match findFence content.data with
    | some cap => cap
    | none => content.data
  let jsonStr := jsTrimL base
  match jsonParseObj jsonStr with
  | some o => some o
  | none => jsonParseObj (repairJsonL jsonStr)

/-- Model of step 5 of `parseResponse` (lines 186-197): for each question in
order, look up its index as a key; a truthy value contributes a response
whose `correctKey` is the first character of the uppercased value. -/
def extractMappings (obj : List (String × JVal)) : List QuestionInput → List AIResponse
  | [] => []
  | q :: rest =>
    match lookupLast obj (toString q.index) with
    | some v =>
      if jvalTruthy v then
        { index := q.index
          correctKey := (asciiUpperS (jvalToString v)).take 1
          explanation := none } :: extractMappings obj rest
      else extractMappings obj rest
    | none => extractMappings obj rest

/-- Model of `parseResponse` in the base provider (lines 160-211): parse or
repair-and-parse the content; zero valid mappings (or a failed parse) yield
an empty response list, signalling the orchestrator to fall through. -/
def parseResponse (content : String) (qs : List QuestionInput) : List AIResponse :=
  match jsonStage content with
  | none => []
  | some obj =>
    let results := extractMappings obj qs
    if results.isEmpty then [] else results

-- ==================== Semantic cache writeback (aiOrchestrator.saveToCache) ====================

/-- A stored cache row, from `GlobalQuestionSchema` in the models. -/
structure CacheEntryRec where
  stemHash : String
  stemPreview : String
  choicesHash : String
  correctKey : String
  explanation : String
  provider : String
  hitCount : Nat
deriving DecidableEq, Repr

/-- The cache collection, as a map from the unique key `(stemHash,
choicesHash)` to the stored row (the compound unique index of
`GlobalQuestionSchema`). -/
def CacheStore : Type :=
  String × String → Option CacheEntryRec

/-- Model of one `updateOne { filter, update: { $setOnInsert }, upsert: true }`
operation: insert the row if the key is absent, otherwise leave the store
unchanged. -/
def upsertSetOnInsert (store : CacheStore) (k : String × String)
    (e : CacheEntryRec) : CacheStore :=
  if (store k).isSome then store
  else fun k2 => if k2 = k then some e else store k2

/-- The row built by `saveToCache` for one answered question.  MD5 hashing of
the normalized stem and choices is modelled by the abstract deterministic key
function `keyOf`. -/
def cacheEntryFor (keyOf : QuestionInput → String × String) (q : QuestionInput)
    (r : AIResponse) (prov : String) : CacheEntryRec :=
  { stemHash := (keyOf q).1
    stemPreview := q.stem.take 100
    choicesHash := (keyOf q).2
    correctKey := r.correctKey
    explanation := r.explanation.getD ("")
    provider := prov
    hitCount := 0 }

/-- Model of `saveToCache` (part of the orchestrator, lines 174-216): for
each response, find the question with the same index; skip it when absent;
otherwise upsert-on-insert its row.  The `bulkWrite` executes the operations
in order. -/
def saveToCache (keyOf : QuestionInput → String × String)
    (questions : List QuestionInput) (responses : List AIResponse)
    (prov : String) (store : CacheStore) : CacheStore :=
  responses.foldl
    (fun st r =>
      match questions.find? (fun q => q.index = r.index) with
      | none => st
      | some q => upsertSetOnInsert st (keyOf q) (cacheEntryFor keyOf q r prov))
    store

-- ==================== AI orchestrator (aiOrchestrator.service) ====================

/-- A cache hit as the orchestrator sees it (`CachedAnswer` without the
constant provider tag and the index, which is filled from the question). -/
structure CachedAnswerM where
  correctKey : String
  explanation : Option String
deriving DecidableEq, Repr

/-- What one provider `solveBatch` call returns, from `BatchResult` in
ai.types (the fields the orchestrator reads). -/
structure BatchResultM where
  responses : List AIResponse
  tokensUsed : Nat
  questionsAnswered : Nat
  questionsFailed : Nat
deriving DecidableEq, Repr

/-- One provider call outcome together with the rate-limit `remaining`
reported by `getRateLimitStatus()` right after the call. -/
structure SolveOutcome where
  result : BatchResultM
  rateRemaining : Nat
deriving DecidableEq, Repr

/-- Environment of the orchestrator: the cache lookup (a failed DB read is
already folded into `none`, as `checkCache` swallows errors), per-provider
availability, and the provider behaviour as a function of a global call
counter, the provider position, and the batch. -/
structure OrchEnv where
  cacheLookup : QuestionInput → Option CachedAnswerM
  available : Nat → Bool
  solve : Nat → Nat → List QuestionInput → SolveOutcome

/-- The provider cascade of `callProvidersWithFallback`, in priority order. -/
def providerNames : List String :=
  ["Gemini", "GitHub", "Groq", "HuggingFace"]

/-- Display name of the provider at a cascade position. -/
def providerName (p : Nat) : String :=
  providerNames.getD p ("")

/-- State threaded through the per-chunk provider cascade. -/
structure FallbackState where
  remaining : List QuestionInput
  responses : List AIResponse
  used : List String
  tokens : Nat
  counter : Nat
  callTrace : List (Nat × List QuestionInput)
deriving Repr

/-- Model of the retry loop inside `callProvidersWithFallback` for one
provider: up to `maxRetries` calls; accept and stop on a call with
`questionsAnswered > 0`, removing the answered indices from the remaining
set; stop without retrying when rate-limited (`remaining == 0`); otherwise
retry. -/
def tryProviderCalls (env : OrchEnv) (p : Nat) : Nat → FallbackState → FallbackState
  | 0, st => st
  | fuel + 1, st =>
    if st.remaining.isEmpty then st
    else
      let oc := env.solve st.counter p st.remaining
      let st1 := { st with
        counter := st.counter + 1
        callTrace := st.callTrace ++ [(p, st.remaining)] }
      if oc.result.questionsAnswered > 0 then
        let answered := oc.result.responses.map (fun r => r.index)
        { st1 with
          responses := st1.responses ++ oc.result.responses
          used := st1.used ++ [providerName p]
          tokens := st1.tokens + oc.result.tokensUsed
          remaining := st1.remaining.filter (fun q => !(answered.contains q.index)) }
      else if oc.rateRemaining = 0 then st1
      else tryProviderCalls env p fuel st1

/-- Model of the provider loop of `callProvidersWithFallback` (lines
221-283): providers in priority order; stop once nothing remains; skip
unavailable providers; otherwise run the retry loop. -/
def runProviders (env : OrchEnv) (maxRetries : Nat) (st0 : FallbackState) : FallbackState :=
  [0, 1, 2, 3].foldl
    (fun st p =>
      if st.remaining.isEmpty then st
      else if env.available p then tryProviderCalls env p maxRetries st
      else st)
    st0

/-- Model of a JavaScript `Map.set`: replace in place when the key exists,
append otherwise. -/
def mapSet (m : List (Nat × CachedAnswerM)) (k : Nat) (v : CachedAnswerM) :
    List (Nat × CachedAnswerM) :=
  if m.any (fun kv => kv.1 = k) then
    m.map (fun kv => if kv.1 = k then (k, v) else kv)
  else m ++ [(k, v)]

/-- Model of the cache phase of `solveQuestions` (step 1): look up every
question in order, collecting hits into the answer map and misses into the
uncached list, and counting both. -/
def cachePhaseGo (env : OrchEnv) (acc : List (Nat × CachedAnswerM))
    (unc : List QuestionInput) (hits misses : Nat) :
    List QuestionInput →
      List (Nat × CachedAnswerM) × List QuestionInput × Nat × Nat
  | [] => (acc, unc, hits, misses)
  | q :: qs =>
    match env.cacheLookup q with
    | some a => cachePhaseGo env (mapSet acc q.index a) unc (hits + 1) misses qs
    | none => cachePhaseGo env acc (unc ++ [q]) hits (misses + 1) qs

/-- Fixed-size chunking with explicit fuel; each step consumes at least one
element, so `length` fuel is always sufficient. -/
def chunksGo (n : Nat) : Nat → List QuestionInput → List (List QuestionInput)
  | 0, _ => []
  | fuel + 1, l =>
    if l.isEmpty then []
    else l.take n :: chunksGo n fuel (l.drop n)

/-- Model of the `BATCH_SIZE = 30` chunking of `solveQuestions` (step 2). -/
def chunks30 (l : List QuestionInput) : List (List QuestionInput) :=
  chunksGo 30 l.length l

/-- Insert a response into a list sorted by ascending index. -/
def insertResp (r : AIResponse) : List AIResponse → List AIResponse
  | [] => [r]
  | x :: xs => if x.index ≤ r.index then x :: insertResp r xs else r :: x :: xs

/-- Model of `responses.sort((a, b) => a.index - b.index)`. -/
def sortByIndex (l : List AIResponse) : List AIResponse :=
  l.foldl (fun acc r => insertResp r acc) []

/-- Orchestrator result, from `OrchestratorResult` in ai.types (the
`duration` timing field is not modelled). -/
structure OrchestratorResult where
  responses : List AIResponse
  providersUsed : List String
  totalTokens : Nat
  cacheHits : Nat
  cacheMisses : Nat
  failedQuestions : Nat
deriving DecidableEq, Repr

/-- State threaded through the per-chunk loop of `solveQuestions`. -/
structure ChunkLoopState where
  responses : List AIResponse
  used : List String
  tokens : Nat
  failed : Nat
  counter : Nat
  callTrace : List (Nat × List QuestionInput)
deriving Repr

/-- One iteration of the chunk loop of `solveQuestions` (step 2): run the
provider cascade on the chunk, then merge the providers used (dropping names
already recorded), tokens, failures, responses and the call trace. -/
def runChunk (env : OrchEnv) (maxRetries : Nat) (st : ChunkLoopState)
    (chunk : List QuestionInput) : ChunkLoopState :=
  let fr := runProviders env maxRetries
    { remaining := chunk, responses := [], used := [], tokens := 0
      counter := st.counter, callTrace := [] }
  { responses := st.responses ++ fr.responses
    used := st.used ++ fr.used.filter (fun p => !(st.used.contains p))
    tokens := st.tokens + fr.tokens
    failed := st.failed + fr.remaining.length
    counter := fr.counter
    callTrace := st.callTrace ++ fr.callTrace }

/-- The cache phase of `solveQuestions`: with caching enabled, the answer
map, uncached list and counters from looking up every question; otherwise
everything is a miss. -/
def cachePhaseResult (env : OrchEnv) (questions : List QuestionInput)
    (enableCache : Bool) :
    List (Nat × CachedAnswerM) × List QuestionInput × Nat × Nat :=
  if enableCache then cachePhaseGo env [] [] 0 0 questions
  else ([], questions, 0, questions.length)

/-- Model of `solveQuestions` (lines 49-137).  Besides the orchestrator
result it returns the trace of provider `solveBatch` calls (provider
position and batch), so that claims about the number of provider calls can
be stated.  The cache writeback inside the chunk loop does not influence any
result field and is not part of this model (all lookups happen in step 1,
before any writeback). -/
def solveQuestions (env : OrchEnv) (questions : List QuestionInput)
    (enableCache : Bool) (maxRetries : Nat) :
    OrchestratorResult × List (Nat × List QuestionInput) :=
  let cp := cachePhaseResult env questions enableCache
  let cachedM := cp.1
  let uncached := cp.2.1
  let hits := cp.2.2.1
  let misses := cp.2.2.2
  let used0 := if 0 < cachedM.length then ["Cache"] else []
  let st0 : ChunkLoopState :=
    { responses := [], used := used0, tokens := 0, failed := 0
      counter := 0, callTrace := [] }
  let stF := (chunks30 uncached).foldl (runChunk env maxRetries) st0
  let respAll := stF.responses ++
    cachedM.map (fun kv => AIResponse.mk kv.1 kv.2.correctKey kv.2.explanation)
  ({ responses := sortByIndex respAll
     providersUsed := stF.used
     totalTokens := stF.tokens
     cacheHits := hits
     cacheMisses := misses
     failedQuestions := stF.failed }, stF.callTrace)

-- ==================== Job queue and worker (quiz worker) ====================

/-- The retry options `addQuizProcessingJob` passes to the queue (lines
86-101). -/
structure JobRetryOptions where
  attempts : Nat
  backoffType : String
  backoffDelayMs : Nat
  removeOnComplete : Bool
  removeOnFail : Bool
deriving DecidableEq, Repr

/-- The options used for every quiz-processing job. -/
def quizJobOptions : JobRetryOptions :=
  { attempts := 3
    backoffType := "fixed"
    backoffDelayMs := 5 * 60 * 1000
    removeOnComplete := true
    removeOnFail := false }

/-- Errors a processing step can throw. -/
inductive ProcError where
  | parserError : String → ProcError
  | dbError : String → ProcError
  | otherError : String → ProcError
deriving DecidableEq, Repr

/-- Whether an error comes from the document parser. -/
def ProcError.isParserError : ProcError → Bool
  | ProcError.parserError _ => true
  | _ => false

/-- Environment of one worker invocation: what the parse step and the
persistence step would do, and whether the local source file exists. -/
structure WorkerEnv where
  parseResult : Except ProcError (List ParsedQuestion)
  saveResult : Except ProcError Unit
  fileExists : Bool

/-- Observable outcome of one `processQuizDocument` invocation:
`raisedToQueue` is the error the handler rethrows to the queue (if any), and
the flags record the cleanup actions of the catch block. -/
structure WorkerOutcome where
  raisedToQueue : Option ProcError
  fileDeleted : Bool
  quizDeleted : Bool
  completed : Bool
deriving DecidableEq, Repr

/-- Model of `processQuizDocument` (lines 103-275): the whole body runs in a
try/catch whose catch block deletes the local file (when it exists) and the
Quiz record, and does not rethrow — so no error ever reaches the queue's
retry machinery. -/
def processQuizDocument (env : WorkerEnv) : WorkerOutcome :=
  match env.parseResult with
  | Except.error _ =>
    { raisedToQueue := none, fileDeleted := env.fileExists
      quizDeleted := true, completed := false }
  | Except.ok _ =>
    match env.saveResult with
    | Except.error _ =>
      { raisedToQueue := none, fileDeleted := env.fileExists
        quizDeleted := true, completed := false }
    | Except.ok _ =>
      { raisedToQueue := none, fileDeleted := false
        quizDeleted := false, completed := true }

-- ==================== Supporting lemmas ====================

theorem captureChoiceText_snd_length (l : List Char) :
    (captureChoiceText l).2.length ≤ l.length := by
  match l with
  | [] => simp [captureChoiceText]
  | [a] => simp [captureChoiceText]
  | [a, b] => simp [captureChoiceText]
  | a :: b :: c :: rest =>
    simp only [captureChoiceText]
    split
    · simp
    · have h := captureChoiceText_snd_length (b :: c :: rest)
      simp only [List.length_cons] at h ⊢
      omega

theorem asciiUpperS_ne_empty {s : String} (h : s ≠ "") : asciiUpperS s ≠ "" := by
  obtain ⟨data⟩ := s
  cases data with
  | nil => exact absurd rfl h
  | cons c cs =>
    simp [asciiUpperS]
    intro hc
    simp [String.ext_iff] at hc

theorem scanChoicesGo_keys (fuel : Nat) (s : List Char) (k : Char) (t : List Char)
    (h : (k, t) ∈ scanChoicesGo fuel s) : isChoiceKey k = true := by
  induction fuel generalizing s with
  | zero => simp [scanChoicesGo] at h
  | succ fuel ih =>
    match s with
    | [] => simp [scanChoicesGo] at h
    | [a] => simp [scanChoicesGo] at h
    | [a, b] => simp [scanChoicesGo] at h
    | [a, b, c] => simp [scanChoicesGo] at h
    | c0 :: c1 :: c2 :: c3 :: rest =>
      rw [scanChoicesGo] at h
      by_cases hc : (isWsChar c0 && isChoiceKey c1 && c2 == '.' && isWsChar c3) = true
      · rw [if_pos hc] at h
        rcases List.mem_cons.mp h with h1 | h2
        · have hk : k = c1 := by
            have := congrArg Prod.fst h1
            simpa using this
          subst hk
          simp only [Bool.and_eq_true] at hc
          exact hc.1.1.2
        · exact ih _ h2
      · rw [if_neg hc] at h
        exact ih _ h

theorem buildQuestionsForAIGo_length (n : Nat) (qs : List ParsedQuestion) :
    (buildQuestionsForAIGo n qs).length = qs.length := by
  induction qs generalizing n with
  | nil => simp [buildQuestionsForAIGo]
  | cons q rest ih => simp [buildQuestionsForAIGo, ih]

theorem buildQuestionsForAIGo_mem (n : Nat) (qs : List ParsedQuestion)
    (q : ParsedQuestion) (hq : q ∈ qs) :
    ∃ qi ∈ buildQuestionsForAIGo n qs, qi.stem = q.stem ∧
      qi.choices = q.choices.map (fun c => ChoiceInput.mk c.key c.text) ∧
      qi.sectionLabel = q.sectionLabel := by
  induction qs generalizing n with
  | nil => simp at hq
  | cons h0 rest ih =>
    rcases List.mem_cons.mp hq with h1 | h2
    · subst h1
      exact ⟨_, List.mem_cons_self _ _, rfl, rfl, rfl⟩
    · obtain ⟨qi, hmem, hp⟩ := ih (n + 1) h2
      exact ⟨qi, List.mem_cons_of_mem _ hmem, hp⟩

-- ==================== Claim C1 ====================

/-- Claim C1: for every parsed question processed by the pipeline, the final
`correctAnswerKey` is selected by precedence: a non-empty parser key (visual
mark) is kept with source `StyleDetected`; otherwise an orchestrator answer
for the question's 1-based index is uppercased and used with source
`AI_Generated`; otherwise the literal `"A"` is used, also with source
`AI_Generated`.  (The hypothesis that the looked-up answer has a non-empty
key matches what the orchestrator produces: provider and cache answers are
never empty strings.) -/
theorem c1_merge_precedence (q : ParsedQuestion) (idx : Nat)
    (respMap : Nat → Option AIResponse) (s : String)
    (hne : ∀ r, respMap (idx + 1) = some r → r.correctKey ≠ "") :
    (q.correctAnswerKey ≠ "" →
      (buildFinalQuestion q idx respMap s).correctAnswerKey = q.correctAnswerKey ∧
      (buildFinalQuestion q idx respMap s).source = AnswerSource.StyleDetected) ∧
    (q.correctAnswerKey = "" →
      (∀ r, respMap (idx + 1) = some r →
        (buildFinalQuestion q idx respMap s).correctAnswerKey = asciiUpperS r.correctKey ∧
        (buildFinalQuestion q idx respMap s).source = AnswerSource.AI_Generated) ∧
      (respMap (idx + 1) = none →
        (buildFinalQuestion q idx respMap s).correctAnswerKey = "A" ∧
        (buildFinalQuestion q idx respMap s).source = AnswerSource.AI_Generated)) := by
  refine ⟨fun hv => ?_, fun hv => ⟨fun r hr => ?_, fun hr => ?_⟩⟩
  · simp [buildFinalQuestion, hv]
  · have hk : asciiUpperS r.correctKey ≠ "" := asciiUpperS_ne_empty (hne r hr)
    simp [buildFinalQuestion, hv, hr, jsOrS, hk]
  · simp [buildFinalQuestion, hv, hr, jsOrS]

/-- Witness for C1: a question with no visual mark and an orchestrator answer
`"c"` for index 1 ends with key `"C"`, source `AI_Generated`. -/
theorem c1_merge_precedence_witness :
    (buildFinalQuestion (ParsedQuestion.mk 7 "st" [] "S" "" AnswerSource.AI_Generated) 0
        (respMapOf [AIResponse.mk 1 "c" none]) "S").correctAnswerKey = "C" ∧
    (buildFinalQuestion (ParsedQuestion.mk 7 "st" [] "S" "" AnswerSource.AI_Generated) 0
        (respMapOf [AIResponse.mk 1 "c" none]) "S").source = AnswerSource.AI_Generated := by
  have h := c1_merge_precedence (ParsedQuestion.mk 7 "st" [] "S" "" AnswerSource.AI_Generated) 0
    (respMapOf [AIResponse.mk 1 "c" none]) "S"
    (by intro r hr; simp [respMapOf] at hr; rw [← hr]; decide)
  have h2 := (h.2 rfl).1 (AIResponse.mk 1 "c" none) (by decide)
  exact ⟨by rw [h2.1]; decide, h2.2⟩

-- ==================== Claim C2 ====================

/-- Counterexample for C2: a parsed question whose `correctAnswerKey` is
already `"C"` (visual mark) is NOT excluded from the list handed to the
cache/orchestrator — the pipeline maps every parsed question into
`questionsForAI`. -/
theorem c2_counterexample :
    (buildQuestionsForAI
      [ParsedQuestion.mk 1 "Pick" [ParsedChoice.mk ("C") "c" true] "S" "C"
        AnswerSource.StyleDetected]).length = 1 ∧
    (ParsedQuestion.mk 1 "Pick" [ParsedChoice.mk ("C") "c" true] "S" "C"
        AnswerSource.StyleDetected).correctAnswerKey ≠ "" := by
  decide

/-- Claim C2 as amended: the pipeline builds the provider input list from ALL
parsed questions — questions with a non-empty `correctAnswerKey` (visual
mark) are included too; their visual-mark answer instead takes precedence at
merge time. -/
theorem c2_all_questions_sent (qs : List ParsedQuestion) :
    (buildQuestionsForAI qs).length = qs.length ∧
    ∀ q ∈ qs, ∃ qi ∈ buildQuestionsForAI qs, qi.stem = q.stem ∧
      qi.choices = q.choices.map (fun c => ChoiceInput.mk c.key c.text) ∧
      qi.sectionLabel = q.sectionLabel := by
  exact ⟨buildQuestionsForAIGo_length 0 qs,
    fun q hq => buildQuestionsForAIGo_mem 0 qs q hq⟩

/-- Witness for C2 (amended): a one-question list maps to a one-element
provider list containing that question's data. -/
theorem c2_all_questions_sent_witness :
    (buildQuestionsForAI
      [ParsedQuestion.mk 1 "Pick" [ParsedChoice.mk ("C") "c" true] "S" "C"
        AnswerSource.StyleDetected]).length = 1 ∧
    ∃ qi ∈ buildQuestionsForAI
      [ParsedQuestion.mk 1 "Pick" [ParsedChoice.mk ("C") "c" true] "S" "C"
        AnswerSource.StyleDetected], qi.stem = "Pick" := by
  have h := c2_all_questions_sent
    [ParsedQuestion.mk 1 "Pick" [ParsedChoice.mk ("C") "c" true] "S" "C"
      AnswerSource.StyleDetected]
  refine ⟨by rw [h.1]; decide, ?_⟩
  obtain ⟨qi, hmem, hstem, _⟩ := h.2 _ (List.mem_singleton.mpr rfl)
  exact ⟨qi, hmem, hstem⟩

-- ==================== Claim C3 ====================

/-- Counterexample for C3: with TWO visually marked choices the DOCX path
does not leave `correctAnswerKey` empty — it takes the FIRST marked choice's
key and labels the question `StyleDetected`. -/
theorem c3_counterexample :
    ((SmartQuestion.mk ("st")
        [ParsedChoice.mk ("A") "x" true, ParsedChoice.mk ("B") "y" true] "S").choices.countP
      (fun c => c.isVisuallyMarked)) = 2 ∧
    (docxFinalizeQuestion 0 (SmartQuestion.mk ("st")
        [ParsedChoice.mk ("A") "x" true, ParsedChoice.mk ("B") "y" true] "S")).correctAnswerKey
      = "A" ∧
    (docxFinalizeQuestion 0 (SmartQuestion.mk ("st")
        [ParsedChoice.mk ("A") "x" true, ParsedChoice.mk ("B") "y" true] "S")).source
      = AnswerSource.StyleDetected := by
  decide

/-- Claim C3 as amended: on the DOCX HTML path, if at least one choice is
visually marked the parsed question's `correctAnswerKey` is the key of the
FIRST marked choice (hence, when exactly one is marked, that choice's key)
and `source = StyleDetected`; if no choice is marked, `correctAnswerKey` is
empty and `source = AI_Generated`. -/
theorem c3_docx_first_marked (idxN : Nat) (sq : SmartQuestion) :
    (∀ c, sq.choices.find? (fun x => x.isVisuallyMarked) = some c →
      (docxFinalizeQuestion idxN sq).correctAnswerKey = c.key ∧
      (docxFinalizeQuestion idxN sq).source = AnswerSource.StyleDetected) ∧
    (sq.choices.find? (fun x => x.isVisuallyMarked) = none →
      (docxFinalizeQuestion idxN sq).correctAnswerKey = "" ∧
      (docxFinalizeQuestion idxN sq).source = AnswerSource.AI_Generated) := by
  refine ⟨fun c hc => ?_, fun hc => ?_⟩
  · simp [docxFinalizeQuestion, hc]
  · simp [docxFinalizeQuestion, hc]

/-- Witness for C3 (amended): a question whose only marked choice is `C`
parses to `correctAnswerKey = "C"`, `source = StyleDetected`. -/
theorem c3_docx_first_marked_witness :
    (docxFinalizeQuestion 0 (SmartQuestion.mk ("st")
        [ParsedChoice.mk ("B") "y" false, ParsedChoice.mk ("C") "z" true] "S")).correctAnswerKey
      = "C" ∧
    (docxFinalizeQuestion 0 (SmartQuestion.mk ("st")
        [ParsedChoice.mk ("B") "y" false, ParsedChoice.mk ("C") "z" true] "S")).source
      = AnswerSource.StyleDetected := by
  exact (c3_docx_first_marked 0 (SmartQuestion.mk ("st")
      [ParsedChoice.mk ("B") "y" false, ParsedChoice.mk ("C") "z" true] "S")).1
    (ParsedChoice.mk ("C") "z" true) (by decide)

-- ==================== Claim C8 ====================

/-- Counterexample for C8: the choice regex only matches keys `A`-`D` but
does not enforce contiguity, distinctness or a count bound, and a doubled
`Câu <n>.` decoration survives the single-pass stem cleanup: this block
parses to SEVEN choices with keys `A,B,C,D,A,B,C` and a stem still starting
with `Câu 2.`. -/
theorem c8_counterexample :
    ((parseQuestionBlock
        ("Câu 1. Câu 2. What? A. a B. b C. c D. d A. e B. f C. g") ("SEC")).map
      (fun q => (q.choices.length, q.choices.map (fun c => c.key), q.stem))) =
    some (7, ["A", "B", "C", "D", "A", "B", "C"], "Câu 2. What?") := by
  decide

theorem parseQuestionBlock_shape (block sect : String) (q : SmartQuestion)
    (h : parseQuestionBlock block sect = some q) :
    2 ≤ q.choices.length ∧
    (∀ c ∈ q.choices, c.key = "A" ∨ c.key = "B" ∨ c.key = "C" ∨ c.key = "D") ∧
    q.stem ≠ "" := by
  rw [parseQuestionBlock] at h
  cases hA : findAnchor block.data with
  | none => rw [hA] at h; exact absurd h (by simp)
  | some pr =>
    obtain ⟨before, cp⟩ := pr
    rw [hA] at h
    simp only at h
    split at h
    · exact absurd h (by simp)
    · rename_i hcond
      injection h with h
      subst h
      simp only [Bool.or_eq_true, decide_eq_true_eq, not_or, Bool.not_eq_true] at hcond
      refine ⟨?_, ?_, ?_⟩
      · have h2 := hcond.1
        simp only [List.length_map] at h2 ⊢
        omega
      · intro c hc
        simp only [List.mem_map] at hc
        obtain ⟨kt, hkt, hceq⟩ := hc
        have hk : isChoiceKey kt.1 = true :=
          scanChoicesGo_keys _ _ kt.1 kt.2 (by simpa using hkt)
        have hkey : c.key = String.mk [asciiUpperChar kt.1] := by
          rw [← hceq]
        simp only [isChoiceKey, Bool.or_eq_true, beq_iff_eq] at hk
        rcases hk with ((h1 | h2) | h3) | h4
        · rw [hkey, h1]; left; decide
        · rw [hkey, h2]; right; left; decide
        · rw [hkey, h3]; right; right; left; decide
        · rw [hkey, h4]; right; right; right; decide
      · have hle : (stemClean before).isEmpty = false := hcond.2
        intro heq
        have hnil : stemClean before = [] := by
          have := congrArg String.data heq
          simpa using this
        rw [hnil] at hle
        simp [List.isEmpty] at hle

theorem keyHeadHtml_key {t : List Char} {p : Char × List Char}
    (h : keyHeadHtml t = some p) : isHtmlChoiceKey p.1 = true := by
  unfold keyHeadHtml at h
  split at h
  · rename_i k rest
    split at h
    · rename_i hcond
      split at h
      · split at h
        · injection h with h
          subst h
          exact hcond
        · exact absurd h (by simp)
      · exact absurd h (by simp)
    · exact absurd h (by simp)
  · exact absurd h (by simp)

theorem choiceMatchAtHtml_key {b : Bool} {t : List Char} {p : Char × List Char}
    (h : choiceMatchAtHtml b t = some p) : isHtmlChoiceKey p.1 = true := by
  unfold choiceMatchAtHtml at h
  split at h
  · rename_i r hr
    injection h with h
    subst h
    split at hr
    · exact keyHeadHtml_key hr
    · exact absurd hr (by simp)
  · split at h
    · split at h
      · exact keyHeadHtml_key h
      · split at h
        · exact keyHeadHtml_key h
        · exact absurd h (by simp)
    · exact absurd h (by simp)

theorem htmlScanChoicesGo_zero (b : Bool) (t : List Char) :
    htmlScanChoicesGo 0 b t = [] := rfl

theorem htmlScanChoicesGo_succ (f : Nat) (b : Bool) (t : List Char) :
    htmlScanChoicesGo (f + 1) b t =
      (match choiceMatchAtHtml b t with
       | some (k, afterHead) =>
         (k, (htmlCaptureText afterHead).1) ::
           htmlScanChoicesGo f false (htmlCaptureText afterHead).2
       | none =>
         match t with
         | [] => []
         | _ :: rest => htmlScanChoicesGo f false rest) := rfl

theorem htmlScanChoicesGo_keys (fuel : Nat) (b : Bool) (s : List Char) (k : Char)
    (t : List Char) (h : (k, t) ∈ htmlScanChoicesGo fuel b s) :
    isHtmlChoiceKey k = true := by
  induction fuel generalizing b s with
  | zero => simp [htmlScanChoicesGo_zero] at h
  | succ f ih =>
    rw [htmlScanChoicesGo_succ] at h
    cases hc : choiceMatchAtHtml b s with
    | some kr =>
      obtain ⟨k0, afterHead⟩ := kr
      rw [hc] at h
      simp only at h
      rcases List.mem_cons.mp h with h1 | h2
      · have hk : k = k0 := by
          have := congrArg Prod.fst h1
          simpa using this
        rw [hk]
        exact choiceMatchAtHtml_key hc
      · exact ih false _ h2
    | none =>
      rw [hc] at h
      cases s with
      | nil => simp at h
      | cons c rest => exact ih false rest h

theorem parseHtmlQuestionBlock_shape (block sect : String) (q : SmartQuestion)
    (h : parseHtmlQuestionBlock block sect = some q) :
    2 ≤ q.choices.length ∧
    (∀ c ∈ q.choices, c.key = "A" ∨ c.key = "B" ∨ c.key = "C" ∨ c.key = "D") ∧
    q.stem ≠ "" := by
  rw [parseHtmlQuestionBlock] at h
  cases hA : htmlFindAnchorGo true block.data with
  | none => rw [hA] at h; exact absurd h (by simp)
  | some pr =>
    obtain ⟨before, cp⟩ := pr
    rw [hA] at h
    simp only at h
    split at h
    · exact absurd h (by simp)
    · rename_i hcond
      injection h with h
      subst h
      simp only [Bool.or_eq_true, decide_eq_true_eq, not_or, Bool.not_eq_true] at hcond
      refine ⟨?_, ?_, ?_⟩
      · have h2 := hcond.1
        simp only [List.length_map] at h2 ⊢
        omega
      · intro c hc
        simp only [List.mem_map] at hc
        obtain ⟨kt, hkt, hceq⟩ := hc
        have hk : isHtmlChoiceKey kt.1 = true :=
          htmlScanChoicesGo_keys _ _ _ kt.1 kt.2 (by simpa using hkt)
        have hkey : c.key = String.mk [asciiUpperChar kt.1] := by
          rw [← hceq]
        have hk2 : kt.1 = 'A' ∨ kt.1 = 'B' ∨ kt.1 = 'C' ∨ kt.1 = 'D' ∨
            kt.1 = 'a' ∨ kt.1 = 'b' ∨ kt.1 = 'c' ∨ kt.1 = 'd' := by
          simpa [isHtmlChoiceKey] using hk
        rcases hk2 with h1 | h2 | h3 | h4 | h5 | h6 | h7 | h8
        · rw [hkey, h1]; left; decide
        · rw [hkey, h2]; right; left; decide
        · rw [hkey, h3]; right; right; left; decide
        · rw [hkey, h4]; right; right; right; decide
        · rw [hkey, h5]; left; decide
        · rw [hkey, h6]; right; left; decide
        · rw [hkey, h7]; right; right; left; decide
        · rw [hkey, h8]; right; right; right; decide
      · have hle : (stemCleanHtml before).isEmpty = false := hcond.2
        intro heq
        have hnil : stemCleanHtml before = [] := by
          have := congrArg String.data heq
          simpa using this
        rw [hnil] at hle
        simp [List.isEmpty] at hle

/-- Claim C8 as amended: every question produced by the document parser —
via `parseQuestionBlock` (PDF and plain-text paths) or
`parseHtmlQuestionBlock` (DOCX HTML path) — has at least two choices, every
choice key is one of `"A"`, `"B"`, `"C"`, `"D"`, and the stem is non-empty
(keys need not be contiguous or distinct, at most one layer of
`Câu <n>`/`<n>.` decoration is stripped, and more than six choices are
possible when keys repeat). -/
theorem c8_parsed_question_shape :
    (∀ (block sect : String) (q : SmartQuestion),
      parseQuestionBlock block sect = some q →
      2 ≤ q.choices.length ∧
      (∀ c ∈ q.choices, c.key = "A" ∨ c.key = "B" ∨ c.key = "C" ∨ c.key = "D") ∧
      q.stem ≠ "") ∧
    (∀ (block sect : String) (q : SmartQuestion),
      parseHtmlQuestionBlock block sect = some q →
      2 ≤ q.choices.length ∧
      (∀ c ∈ q.choices, c.key = "A" ∨ c.key = "B" ∨ c.key = "C" ∨ c.key = "D") ∧
      q.stem ≠ "") :=
  ⟨parseQuestionBlock_shape, parseHtmlQuestionBlock_shape⟩

/-- Witness for C8 (amended): a well-formed four-choice plain-text block and
a two-choice DOCX HTML block (with a bold tag split across captures) both
satisfy the shape invariant. -/
theorem c8_parsed_question_shape_witness :
    (parseQuestionBlock ("Câu 3: What is 2+2? A. 3 B. 4 C. 5 D. 6") "SEC" =
      some (SmartQuestion.mk ("What is 2+2?")
        [ParsedChoice.mk ("A") "3" false, ParsedChoice.mk ("B") "4" false,
         ParsedChoice.mk ("C") "5" false, ParsedChoice.mk ("D") "6" false] "SEC") ∧
      2 ≤ (SmartQuestion.mk ("What is 2+2?")
        [ParsedChoice.mk ("A") "3" false, ParsedChoice.mk ("B") "4" false,
         ParsedChoice.mk ("C") "5" false, ParsedChoice.mk ("D") "6" false] "SEC").choices.length ∧
      (∀ c ∈ (SmartQuestion.mk ("What is 2+2?")
        [ParsedChoice.mk ("A") "3" false, ParsedChoice.mk ("B") "4" false,
         ParsedChoice.mk ("C") "5" false, ParsedChoice.mk ("D") "6" false] "SEC").choices,
        c.key = "A" ∨ c.key = "B" ∨ c.key = "C" ∨ c.key = "D") ∧
      (SmartQuestion.mk ("What is 2+2?")
        [ParsedChoice.mk ("A") "3" false, ParsedChoice.mk ("B") "4" false,
         ParsedChoice.mk ("C") "5" false, ParsedChoice.mk ("D") "6" false] "SEC").stem ≠ "") ∧
    (parseHtmlQuestionBlock ("<p>Câu 1: What is it? A. one <b>B. two</b></p>") "SEC" =
      some (SmartQuestion.mk ("What is it?")
        [ParsedChoice.mk ("A") "one <b" false,
         ParsedChoice.mk ("B") "two" false] "SEC") ∧
      2 ≤ (SmartQuestion.mk ("What is it?")
        [ParsedChoice.mk ("A") "one <b" false,
         ParsedChoice.mk ("B") "two" false] "SEC").choices.length ∧
      (∀ c ∈ (SmartQuestion.mk ("What is it?")
        [ParsedChoice.mk ("A") "one <b" false,
         ParsedChoice.mk ("B") "two" false] "SEC").choices,
        c.key = "A" ∨ c.key = "B" ∨ c.key = "C" ∨ c.key = "D") ∧
      (SmartQuestion.mk ("What is it?")
        [ParsedChoice.mk ("A") "one <b" false,
         ParsedChoice.mk ("B") "two" false] "SEC").stem ≠ "") := by
  constructor
  · refine ⟨by decide, ?_⟩
    exact c8_parsed_question_shape.1 ("Câu 3: What is 2+2? A. 3 B. 4 C. 5 D. 6") "SEC"
      (SmartQuestion.mk ("What is 2+2?")
        [ParsedChoice.mk ("A") "3" false, ParsedChoice.mk ("B") "4" false,
         ParsedChoice.mk ("C") "5" false, ParsedChoice.mk ("D") "6" false] "SEC")
      (by decide)
  · refine ⟨by decide, ?_⟩
    exact c8_parsed_question_shape.2 ("<p>Câu 1: What is it? A. one <b>B. two</b></p>") "SEC"
      (SmartQuestion.mk ("What is it?")
        [ParsedChoice.mk ("A") "one <b" false,
         ParsedChoice.mk ("B") "two" false] "SEC")
      (by decide)

-- ==================== Claim C9 ====================

/-- Counterexample for C9: a block whose anchor `A.` is not a real choice
parses to choices `C`, `D`; with no orchestrator answer the pipeline stores
the fallback `correctAnswerKey = "A"`, which is non-empty and matches no
choice key of the question. -/
theorem c9_counterexample :
    ((parseQuestionBlock ("Pick one A.B C. c D. d") "SEC").map (fun sq =>
      ((buildFinalQuestion (txtFinalizeQuestion 0 sq) 0 (respMapOf []) "SEC").correctAnswerKey,
       (buildFinalQuestion (txtFinalizeQuestion 0 sq) 0 (respMapOf []) "SEC").choices.map
         (fun c => c.key),
       ((buildFinalQuestion (txtFinalizeQuestion 0 sq) 0 (respMapOf []) "SEC").choices.map
         (fun c => c.key)).contains
         (buildFinalQuestion (txtFinalizeQuestion 0 sq) 0 (respMapOf []) "SEC").correctAnswerKey))) =
    some ("A", ["C", "D"], false) := by
  decide

/-- Claim C9 as amended: only visual-mark answers are guaranteed to match a
choice key — when the DOCX path detects a marked choice (with its single-
letter key), the merged question's `correctAnswerKey` is that choice's key
and hence matches one of the question's choices; AI-path answers and the
literal `"A"` fallback are never validated against the choice keys. -/
theorem c9_visual_mark_key_valid (idxN idx2 : Nat) (sq : SmartQuestion)
    (c : ParsedChoice) (respMap : Nat → Option AIResponse) (s : String)
    (hfind : sq.choices.find? (fun x => x.isVisuallyMarked) = some c)
    (hkey : c.key ≠ "") :
    (buildFinalQuestion (docxFinalizeQuestion idxN sq) idx2 respMap s).correctAnswerKey
      = c.key ∧
    (buildFinalQuestion (docxFinalizeQuestion idxN sq) idx2 respMap s).correctAnswerKey
      ∈ (buildFinalQuestion (docxFinalizeQuestion idxN sq) idx2 respMap s).choices.map
        (fun x => x.key) := by
  have hkeyq : (docxFinalizeQuestion idxN sq).correctAnswerKey = c.key := by
    simp [docxFinalizeQuestion, hfind]
  have hch : (docxFinalizeQuestion idxN sq).choices = sq.choices := rfl
  have hmain : (buildFinalQuestion (docxFinalizeQuestion idxN sq) idx2 respMap s).correctAnswerKey
      = c.key := by
    simp [buildFinalQuestion, hkeyq, hkey]
  refine ⟨hmain, ?_⟩
  rw [hmain]
  have hcmem : c ∈ sq.choices := List.mem_of_find?_eq_some hfind
  have : (buildFinalQuestion (docxFinalizeQuestion idxN sq) idx2 respMap s).choices
      = sq.choices := rfl
  rw [this]
  exact List.mem_map.mpr ⟨c, hcmem, rfl⟩

/-- Witness for C9 (amended): a marked choice `B` survives the merge and
matches a choice key. -/
theorem c9_visual_mark_key_valid_witness :
    (buildFinalQuestion (docxFinalizeQuestion 0 (SmartQuestion.mk ("st")
        [ParsedChoice.mk ("A") "x" false, ParsedChoice.mk ("B") "y" true] "S")) 0
      (respMapOf [AIResponse.mk 1 "a" none]) "S").correctAnswerKey = "B" ∧
    (buildFinalQuestion (docxFinalizeQuestion 0 (SmartQuestion.mk ("st")
        [ParsedChoice.mk ("A") "x" false, ParsedChoice.mk ("B") "y" true] "S")) 0
      (respMapOf [AIResponse.mk 1 "a" none]) "S").correctAnswerKey
      ∈ (buildFinalQuestion (docxFinalizeQuestion 0 (SmartQuestion.mk ("st")
        [ParsedChoice.mk ("A") "x" false, ParsedChoice.mk ("B") "y" true] "S")) 0
      (respMapOf [AIResponse.mk 1 "a" none]) "S").choices.map (fun x => x.key) := by
  exact c9_visual_mark_key_valid 0 0 (SmartQuestion.mk ("st")
      [ParsedChoice.mk ("A") "x" false, ParsedChoice.mk ("B") "y" true] "S")
    (ParsedChoice.mk ("B") "y" true) (respMapOf [AIResponse.mk 1 "a" none]) "S"
    (by decide) (by decide)

-- ==================== Claim C10 ====================

/-- Counterexample for C10: a NON-parser error (the quiz save fails) is
swallowed by the handler's catch block — nothing is raised to the queue, so
no retry can happen — and the cleanup (delete file and Quiz record) runs
although the error is not a parser error. -/
theorem c10_counterexample :
    processQuizDocument (WorkerEnv.mk (Except.ok [])
        (Except.error (ProcError.dbError ("save failed"))) true) =
      WorkerOutcome.mk none true true false ∧
    (ProcError.dbError ("save failed")).isParserError = false := by
  constructor
  · rfl
  · rfl

/-- Claim C10 as amended: quiz jobs are enqueued with 3 attempts, fixed
5-minute backoff, and failed jobs retained; but `processQuizDocument`
catches every error without rethrowing — so the queue's retry machinery
never sees a failure — and its cleanup (delete the local file when present
and delete the Quiz record) runs for EVERY error, not only parser errors. -/
theorem c10_swallowed_errors :
    quizJobOptions.attempts = 3 ∧ quizJobOptions.backoffType = "fixed" ∧
    quizJobOptions.backoffDelayMs = 300000 ∧ quizJobOptions.removeOnFail = false ∧
    ∀ env : WorkerEnv,
      (processQuizDocument env).raisedToQueue = none ∧
      ((∃ e, env.parseResult = Except.error e) ∨ (∃ e, env.saveResult = Except.error e) →
        (processQuizDocument env).quizDeleted = true ∧
        (processQuizDocument env).completed = false ∧
        (processQuizDocument env).fileDeleted = env.fileExists) := by
  refine ⟨rfl, rfl, rfl, rfl, fun env => ⟨?_, ?_⟩⟩
  · cases hp : env.parseResult with
    | error e => simp [processQuizDocument, hp]
    | ok v =>
      cases hs : env.saveResult with
      | error e => simp [processQuizDocument, hp, hs]
      | ok u => simp [processQuizDocument, hp, hs]
  · intro herr
    cases hp : env.parseResult with
    | error e => simp [processQuizDocument, hp]
    | ok v =>
      cases hs : env.saveResult with
      | error e => simp [processQuizDocument, hp, hs]
      | ok u =>
        exfalso
        rcases herr with ⟨e, he⟩ | ⟨e, he⟩
        · rw [hp] at he; exact Except.noConfusion he
        · rw [hs] at he; exact Except.noConfusion he

/-- Witness for C10 (amended): the error environment of the counterexample
instantiates the theorem. -/
theorem c10_swallowed_errors_witness :
    (processQuizDocument (WorkerEnv.mk (Except.ok [])
        (Except.error (ProcError.dbError ("save failed"))) true)).raisedToQueue = none ∧
    (processQuizDocument (WorkerEnv.mk (Except.ok [])
        (Except.error (ProcError.dbError ("save failed"))) true)).quizDeleted = true := by
  have h := c10_swallowed_errors.2.2.2.2
    (WorkerEnv.mk (Except.ok []) (Except.error (ProcError.dbError ("save failed"))) true)
  exact ⟨h.1, (h.2 (Or.inr ⟨ProcError.dbError ("save failed"), rfl⟩)).1⟩

-- ==================== Claim C6 ====================

theorem upsert_preserves (store : CacheStore) (k0 k : String × String)
    (e : CacheEntryRec) (h : (store k).isSome) :
    upsertSetOnInsert store k0 e k = store k := by
  by_cases hs : (store k0).isSome
  · simp [upsertSetOnInsert, hs]
  · have hkk : k ≠ k0 := by
      intro he
      rw [he] at h
      exact hs h
    simp [upsertSetOnInsert, hs, hkk]

theorem upsert_sets (store : CacheStore) (k0 : String × String) (e : CacheEntryRec) :
    ((upsertSetOnInsert store k0 e) k0).isSome := by
  by_cases hs : (store k0).isSome
  · simp [upsertSetOnInsert, hs]
  · simp [upsertSetOnInsert, hs]

theorem saveToCache_cons (keyOf : QuestionInput → String × String)
    (qs : List QuestionInput) (r : AIResponse) (rest : List AIResponse)
    (prov : String) (store : CacheStore) :
    saveToCache keyOf qs (r :: rest) prov store =
      saveToCache keyOf qs rest prov
        (match qs.find? (fun q => q.index = r.index) with
         | none => store
         | some q => upsertSetOnInsert store (keyOf q) (cacheEntryFor keyOf q r prov)) := by
  rfl

theorem saveToCache_preserves (keyOf : QuestionInput → String × String)
    (qs : List QuestionInput) (prov : String) :
    ∀ (rs : List AIResponse) (store : CacheStore) (k : String × String),
      (store k).isSome → saveToCache keyOf qs rs prov store k = store k := by
  intro rs
  induction rs with
  | nil =>
    intro store k _
    rfl
  | cons r rest ih =>
    intro store k h
    rw [saveToCache_cons]
    cases hq : qs.find? (fun q => q.index = r.index) with
    | none =>
      simp only [hq]
      exact ih store k h
    | some q =>
      simp only [hq]
      have hpres := upsert_preserves store (keyOf q) k (cacheEntryFor keyOf q r prov) h
      have hsome : ((upsertSetOnInsert store (keyOf q) (cacheEntryFor keyOf q r prov)) k).isSome := by
        rw [hpres]
        exact h
      rw [ih _ k hsome, hpres]

theorem saveToCache_mono_some (keyOf : QuestionInput → String × String)
    (qs : List QuestionInput) (rs : List AIResponse) (prov : String)
    (store : CacheStore) (k : String × String) (h : (store k).isSome) :
    ((saveToCache keyOf qs rs prov store) k).isSome := by
  rw [saveToCache_preserves keyOf qs prov rs store k h]
  exact h

theorem saveToCache_resp_key_present (keyOf : QuestionInput → String × String)
    (qs : List QuestionInput) (prov : String) :
    ∀ (rs : List AIResponse) (store : CacheStore) (r : AIResponse), r ∈ rs →
      ∀ q, qs.find? (fun x => x.index = r.index) = some q →
      ((saveToCache keyOf qs rs prov store) (keyOf q)).isSome := by
  intro rs
  induction rs with
  | nil =>
    intro store r hr
    simp at hr
  | cons r0 rest ih =>
    intro store r hr q hq
    rw [saveToCache_cons]
    rcases List.mem_cons.mp hr with h1 | h2
    · subst h1
      rw [hq]
      exact saveToCache_mono_some keyOf qs rest prov _ (keyOf q)
        (upsert_sets store (keyOf q) (cacheEntryFor keyOf q r prov))
    · cases hq0 : qs.find? (fun x => x.index = r0.index) with
      | none =>
        simp only [hq0]
        exact ih store r h2 q hq
      | some q0 =>
        simp only [hq0]
        exact ih _ r h2 q hq

theorem saveToCache_noop (keyOf : QuestionInput → String × String)
    (qs : List QuestionInput) (prov : String) :
    ∀ (rs : List AIResponse) (S : CacheStore),
      (∀ r ∈ rs, ∀ q, qs.find? (fun x => x.index = r.index) = some q →
        (S (keyOf q)).isSome) →
      ∀ k, saveToCache keyOf qs rs prov S k = S k := by
  intro rs
  induction rs with
  | nil =>
    intro S _ k
    rfl
  | cons r0 rest ih =>
    intro S hpre k
    rw [saveToCache_cons]
    cases hq : qs.find? (fun x => x.index = r0.index) with
    | none =>
      simp only [hq]
      exact ih S (fun r hr => hpre r (List.mem_cons_of_mem _ hr)) k
    | some q0 =>
      simp only [hq]
      have hS : (S (keyOf q0)).isSome := hpre r0 (List.mem_cons_self _ _) q0 hq
      have hupst : upsertSetOnInsert S (keyOf q0) (cacheEntryFor keyOf q0 r0 prov) = S := by
        unfold upsertSetOnInsert
        rw [if_pos hS]
      rw [hupst]
      exact ih S (fun r hr => hpre r (List.mem_cons_of_mem _ hr)) k

/-- Claim C6: cache writeback is idempotent and first-write-wins — for any
key already present, `saveToCache` leaves the stored row (in particular
`correctKey`, `explanation`, `provider`) unchanged, and a second identical
writeback call changes nothing at any key. -/
theorem c6_cache_writeback_first_write_wins
    (keyOf : QuestionInput → String × String) (qs : List QuestionInput)
    (rs : List AIResponse) (prov : String) (store : CacheStore)
    (k : String × String) :
    ((store k).isSome → saveToCache keyOf qs rs prov store k = store k) ∧
    (∀ k2, saveToCache keyOf qs rs prov (saveToCache keyOf qs rs prov store) k2 =
      saveToCache keyOf qs rs prov store k2) := by
  refine ⟨fun h => saveToCache_preserves keyOf qs prov rs store k h, fun k2 => ?_⟩
  exact saveToCache_noop keyOf qs prov rs (saveToCache keyOf qs rs prov store)
    (fun r hr q hq => saveToCache_resp_key_present keyOf qs prov rs store r hr q hq) k2

/-- Witness for C6: a pre-existing row with `correctKey = "D"` survives a
writeback of `"B"` for the same key, and the second writeback is a no-op. -/
theorem c6_cache_writeback_first_write_wins_witness :
    (saveToCache (fun q => (q.stem, "h")) [QuestionInput.mk 1 "stem1" [] ""]
        [AIResponse.mk 1 "B" none] "Groq"
        (fun k => if k = ("stem1", "h")
          then some (CacheEntryRec.mk ("stem1") "p" "h" "D" "" "Gemini" 5) else none))
      ("stem1", "h") = some (CacheEntryRec.mk ("stem1") "p" "h" "D" "" "Gemini" 5) ∧
    (saveToCache (fun q => (q.stem, "h")) [QuestionInput.mk 1 "stem1" [] ""]
        [AIResponse.mk 1 "B" none] "Groq"
        (saveToCache (fun q => (q.stem, "h")) [QuestionInput.mk 1 "stem1" [] ""]
          [AIResponse.mk 1 "B" none] "Groq"
          (fun k => if k = ("stem1", "h")
            then some (CacheEntryRec.mk ("stem1") "p" "h" "D" "" "Gemini" 5) else none)))
      ("stem1", "h") =
    (saveToCache (fun q => (q.stem, "h")) [QuestionInput.mk 1 "stem1" [] ""]
        [AIResponse.mk 1 "B" none] "Groq"
        (fun k => if k = ("stem1", "h")
          then some (CacheEntryRec.mk ("stem1") "p" "h" "D" "" "Gemini" 5) else none))
      ("stem1", "h") := by
  have h := c6_cache_writeback_first_write_wins (fun q => (q.stem, "h"))
    [QuestionInput.mk 1 "stem1" [] ""] [AIResponse.mk 1 "B" none] "Groq"
    (fun k => if k = ("stem1", "h")
      then some (CacheEntryRec.mk ("stem1") "p" "h" "D" "" "Gemini" 5) else none)
    ("stem1", "h")
  refine ⟨?_, h.2 ("stem1", "h")⟩
  rw [h.1 (by decide)]
  decide

-- ==================== Claim C7 ====================

/-- Claim C7: provider response parsing attempts a direct JSON parse, on
failure repairs by the stated algorithm and reparses — the truncated input
repairs to the closed object and both answers are accepted — and whenever
zero valid index-to-answer mappings are obtained the result is the empty
response list. -/
theorem c7_json_repair_and_parse :
    (repairJson ("\x7b\"1\":\"A\",\"2\":\"B") = "\x7b\"1\":\"A\",\"2\":\"B\"\x7d") ∧
    (parseResponse ("\x7b\"1\":\"A\",\"2\":\"B")
      [QuestionInput.mk 1 "q1" [] "", QuestionInput.mk 2 "q2" [] ""] =
      [AIResponse.mk 1 "A" none, AIResponse.mk 2 "B" none]) ∧
    (∀ content qs,
      ((jsonStage content).map (fun obj => extractMappings obj qs)).getD [] = [] →
      parseResponse content qs = []) := by
  refine ⟨by decide, by decide, fun content qs h => ?_⟩
  unfold parseResponse
  cases hj : jsonStage content with
  | none => rfl
  | some obj =>
    rw [hj] at h
    simp only [Option.map_some', Option.getD_some] at h
    simp [h]

/-- Witness for C7: unparseable garbage repairs to `"{}"`, yields zero
mappings, and the response list is empty. -/
theorem c7_json_repair_and_parse_witness :
    ((jsonStage ("garbage")).map
      (fun obj => extractMappings obj [QuestionInput.mk 1 "q1" [] ""])).getD [] = [] ∧
    parseResponse ("garbage") [QuestionInput.mk 1 "q1" [] ""] = [] := by
  exact ⟨by decide,
    c7_json_repair_and_parse.2.2 ("garbage") [QuestionInput.mk 1 "q1" [] ""] (by decide)⟩

-- ==================== Claim C4 ====================

theorem mapSet_ne_nil (m : List (Nat × CachedAnswerM)) (k : Nat) (v : CachedAnswerM) :
    mapSet m k v ≠ [] := by
  unfold mapSet
  split
  · rename_i hany
    cases m with
    | nil => simp at hany
    | cons x xs => simp
  · simp

theorem cachePhase_allhit_unc (env : OrchEnv) :
    ∀ (Q : List QuestionInput) (acc : List (Nat × CachedAnswerM))
      (unc : List QuestionInput) (h m : Nat),
      (∀ q ∈ Q, (env.cacheLookup q).isSome) →
      (cachePhaseGo env acc unc h m Q).2.1 = unc := by
  intro Q
  induction Q with
  | nil =>
    intro acc unc h m _
    rfl
  | cons q qs ih =>
    intro acc unc h m hall
    obtain ⟨a, ha⟩ := Option.isSome_iff_exists.mp (hall q (List.mem_cons_self _ _))
    simp only [cachePhaseGo, ha]
    exact ih _ _ _ _ (fun x hx => hall x (List.mem_cons_of_mem _ hx))

theorem cachePhase_acc_ne_nil (env : OrchEnv) :
    ∀ (Q : List QuestionInput) (acc : List (Nat × CachedAnswerM))
      (unc : List QuestionInput) (h m : Nat),
      acc ≠ [] → (cachePhaseGo env acc unc h m Q).1 ≠ [] := by
  intro Q
  induction Q with
  | nil =>
    intro acc unc h m hacc
    simpa [cachePhaseGo] using hacc
  | cons q qs ih =>
    intro acc unc h m hacc
    cases hc : env.cacheLookup q with
    | some a =>
      simp only [cachePhaseGo, hc]
      exact ih _ _ _ _ (mapSet_ne_nil _ _ _)
    | none =>
      simp only [cachePhaseGo, hc]
      exact ih _ _ _ _ hacc

/-- Counterexample for C4: with the EMPTY question list, every question
vacuously hits the cache, no provider is called, but `providersUsed` is `[]`
rather than `["Cache"]` (the `"Cache"` tag is only pushed when at least one
hit was recorded). -/
theorem c4_counterexample :
    (([] : List QuestionInput).all (fun q =>
      ((OrchEnv.mk (fun _ => some (CachedAnswerM.mk ("B") none)) (fun _ => true)
        (fun _ _ b => SolveOutcome.mk (BatchResultM.mk [] 0 0 b.length) 1)).cacheLookup
          q).isSome)) = true ∧
    (solveQuestions (OrchEnv.mk (fun _ => some (CachedAnswerM.mk ("B") none)) (fun _ => true)
        (fun _ _ b => SolveOutcome.mk (BatchResultM.mk [] 0 0 b.length) 1))
      [] true 2).2.length = 0 ∧
    (solveQuestions (OrchEnv.mk (fun _ => some (CachedAnswerM.mk ("B") none)) (fun _ => true)
        (fun _ _ b => SolveOutcome.mk (BatchResultM.mk [] 0 0 b.length) 1))
      [] true 2).1.providersUsed ≠ ["Cache"] := by
  refine ⟨rfl, rfl, ?_⟩
  intro h
  have : ([] : List String) = ["Cache"] := h
  simp at this

/-- Claim C4 as amended: for every NON-EMPTY question list in which every
question hits the cache, the orchestrator issues zero provider `solveBatch`
calls and `providersUsed` is exactly `["Cache"]` (for the empty list there
are still zero provider calls, but `providersUsed` is `[]`). -/
theorem c4_all_cached (env : OrchEnv) (Q : List QuestionInput) (mr : Nat)
    (hne : Q ≠ []) (hall : ∀ q ∈ Q, (env.cacheLookup q).isSome) :
    (solveQuestions env Q true mr).2 = [] ∧
    (solveQuestions env Q true mr).1.providersUsed = ["Cache"] := by
  cases Q with
  | nil => exact absurd rfl hne
  | cons q0 Q2 =>
    obtain ⟨a0, ha0⟩ := Option.isSome_iff_exists.mp (hall q0 (List.mem_cons_self _ _))
    have hcp_unc : (cachePhaseGo env [] [] 0 0 (q0 :: Q2)).2.1 = [] :=
      cachePhase_allhit_unc env (q0 :: Q2) [] [] 0 0 hall
    have hcp_map : (cachePhaseGo env [] [] 0 0 (q0 :: Q2)).1 ≠ [] := by
      simp only [cachePhaseGo, ha0]
      exact cachePhase_acc_ne_nil env Q2 _ _ _ _ (mapSet_ne_nil _ _ _)
    have hlen : 0 < (cachePhaseGo env [] [] 0 0 (q0 :: Q2)).1.length :=
      List.length_pos.mpr hcp_map
    unfold solveQuestions cachePhaseResult
    simp only [if_true]
    rw [hcp_unc]
    simp [chunks30, chunksGo, hlen]

-- ==================== Claim C5 ====================

/-- Witness for C4: one question that hits the cache yields no provider
calls and `providersUsed = ["Cache"]`. -/
theorem c4_all_cached_witness :
    (solveQuestions (OrchEnv.mk (fun _ => some (CachedAnswerM.mk ("B") none)) (fun _ => true)
        (fun _ _ b => SolveOutcome.mk (BatchResultM.mk [] 0 0 b.length) 1))
      [QuestionInput.mk 1 "s" [] ""] true 2).2 = [] ∧
    (solveQuestions (OrchEnv.mk (fun _ => some (CachedAnswerM.mk ("B") none)) (fun _ => true)
        (fun _ _ b => SolveOutcome.mk (BatchResultM.mk [] 0 0 b.length) 1))
      [QuestionInput.mk 1 "s" [] ""] true 2).1.providersUsed = ["Cache"] := by
  exact c4_all_cached
    (OrchEnv.mk (fun _ => some (CachedAnswerM.mk ("B") none)) (fun _ => true)
      (fun _ _ b => SolveOutcome.mk (BatchResultM.mk [] 0 0 b.length) 1))
    [QuestionInput.mk 1 "s" [] ""] 2 (by simp)
    (fun q _ => by simp)

/-- Well-formedness of the provider environment: each `solveBatch` call
answers an order-preserving subset of the indices it was asked (as the
providers' `parseResponse` produces at most one response per input question,
in question order). -/
def OrchEnv.wf (env : OrchEnv) : Prop :=
  ∀ k p b, ((env.solve k p b).result.responses.map (fun r => r.index)).Sublist
    (b.map (fun q => q.index))

theorem countP_ext_mem {α : Type} (p q : α → Bool) :
    ∀ (l : List α), (∀ x ∈ l, p x = q x) → l.countP p = l.countP q := by
  intro l
  induction l with
  | nil => intro _; rfl
  | cons a t ih =>
    intro h
    rw [List.countP_cons, List.countP_cons, h a (List.mem_cons_self _ _),
      ih (fun x hx => h x (List.mem_cons_of_mem _ hx))]

theorem countP_split {α : Type} (p : α → Bool) :
    ∀ (l : List α), l.countP p + l.countP (fun a => !(p a)) = l.length := by
  intro l
  induction l with
  | nil => rfl
  | cons a t ih =>
    rw [List.countP_cons, List.countP_cons]
    cases hp : p a <;> simp [hp] <;> omega

theorem countP_contains_sublist : ∀ {A S : List Nat}, A.Sublist S → S.Nodup →
    S.countP (fun i => A.contains i) = A.length := by
  intro A S h
  induction h with
  | slnil => intro _; rfl
  | cons a h ih =>
    rename_i A2 S2
    intro hnd
    have hns := List.nodup_cons.mp hnd
    have ha : A2.contains a = false := by
      by_cases hc : a ∈ A2
      · exact absurd (h.subset hc) hns.1
      · simpa using hc
    rw [List.countP_cons, ha]
    simpa using ih hns.2
  | cons₂ a h ih =>
    rename_i A2 S2
    intro hnd
    have hns := List.nodup_cons.mp hnd
    rw [List.countP_cons]
    have ha : (a :: A2).contains a = true := by simp
    rw [ha]
    have hext : S2.countP (fun i => (a :: A2).contains i)
        = S2.countP (fun i => A2.contains i) := by
      apply countP_ext_mem
      intro x hx
      have hxa : x ≠ a := fun he => hns.1 (he ▸ hx)
      simp [List.contains_cons, hxa]
    rw [hext, ih hns.2]
    simp

theorem filter_not_contains_length (rem : List QuestionInput) (A : List Nat)
    (hsub : A.Sublist (rem.map (fun q => q.index)))
    (hnd : (rem.map (fun q => q.index)).Nodup) :
    (rem.filter (fun q => !(A.contains q.index))).length + A.length = rem.length := by
  have h1 : (rem.filter (fun q => !(A.contains q.index))).length
      = rem.countP (fun q => !(A.contains q.index)) :=
    (List.countP_eq_length_filter _ _).symm
  have h2 : (rem.map (fun q => q.index)).countP (fun i => !(A.contains i))
      = rem.countP (fun q => !(A.contains q.index)) :=
    List.countP_map _ _ _
  have h3 := countP_contains_sublist hsub hnd
  have h4 := countP_split (fun i => A.contains i) (rem.map (fun q => q.index))
  have h5 : (rem.map (fun q => q.index)).length = rem.length := List.length_map _ _
  omega

theorem tryProviderCalls_conservation (env : OrchEnv) (p : Nat)
    (hwf : OrchEnv.wf env) :
    ∀ (fuel : Nat) (st : FallbackState), ((st.remaining.map (fun q => q.index)).Nodup) →
      ((tryProviderCalls env p fuel st).responses.length +
          (tryProviderCalls env p fuel st).remaining.length
        = st.responses.length + st.remaining.length) ∧
      (((tryProviderCalls env p fuel st).remaining.map (fun q => q.index)).Nodup) := by
  intro fuel
  induction fuel with
  | zero =>
    intro st hnd
    exact ⟨rfl, hnd⟩
  | succ f ih =>
    intro st hnd
    rw [tryProviderCalls]
    by_cases hemp : st.remaining.isEmpty
    · simp only [hemp, if_true]
      exact ⟨trivial, hnd⟩
    · simp only [hemp, if_false, Bool.false_eq_true]
      by_cases hans : (env.solve st.counter p st.remaining).result.questionsAnswered > 0
      · simp only [hans, if_true, if_pos hans]
        have hsub := hwf st.counter p st.remaining
        have hfil := filter_not_contains_length st.remaining
          ((env.solve st.counter p st.remaining).result.responses.map (fun r => r.index))
          hsub hnd
        constructor
        · simp only [List.length_append, List.length_map] at hfil ⊢
          omega
        · exact List.Nodup.sublist
            (List.Sublist.map (fun q => q.index) (List.filter_sublist st.remaining)) hnd
      · simp only [if_neg hans]
        by_cases hrate : (env.solve st.counter p st.remaining).rateRemaining = 0
        · simp only [hrate, if_pos rfl]
          exact ⟨rfl, hnd⟩
        · simp only [if_neg hrate]
          exact ih _ hnd

theorem providers_foldl_conservation (env : OrchEnv) (mr : Nat)
    (hwf : OrchEnv.wf env) :
    ∀ (ps : List Nat) (st : FallbackState), ((st.remaining.map (fun q => q.index)).Nodup) →
      (((ps.foldl (fun st2 p =>
          if st2.remaining.isEmpty then st2
          else if env.available p then tryProviderCalls env p mr st2
          else st2) st).responses.length +
        (ps.foldl (fun st2 p =>
          if st2.remaining.isEmpty then st2
          else if env.available p then tryProviderCalls env p mr st2
          else st2) st).remaining.length
        = st.responses.length + st.remaining.length) ∧
      (((ps.foldl (fun st2 p =>
          if st2.remaining.isEmpty then st2
          else if env.available p then tryProviderCalls env p mr st2
          else st2) st).remaining.map (fun q => q.index)).Nodup)) := by
  intro ps
  induction ps with
  | nil =>
    intro st hnd
    exact ⟨rfl, hnd⟩
  | cons p rest ih =>
    intro st hnd
    simp only [List.foldl_cons]
    by_cases hemp : st.remaining.isEmpty
    · simp only [hemp, if_true]
      exact ih st hnd
    · simp only [hemp, if_false, Bool.false_eq_true]
      by_cases hav : env.available p
      · simp only [hav, if_true]
        obtain ⟨hc, hn⟩ := tryProviderCalls_conservation env p hwf mr st hnd
        obtain ⟨hc2, hn2⟩ := ih (tryProviderCalls env p mr st) hn
        exact ⟨by omega, hn2⟩
      · simp only [hav, if_false, Bool.false_eq_true]
        exact ih st hnd

theorem runProviders_conservation (env : OrchEnv) (mr : Nat)
    (hwf : OrchEnv.wf env) (chunk : List QuestionInput) (counter : Nat)
    (hnd : (chunk.map (fun q => q.index)).Nodup) :
    ((runProviders env mr
        (FallbackState.mk chunk [] [] 0 counter [])).responses.length +
      (runProviders env mr
        (FallbackState.mk chunk [] [] 0 counter [])).remaining.length
      = chunk.length) := by
  have h := providers_foldl_conservation env mr hwf [0, 1, 2, 3]
    (FallbackState.mk chunk [] [] 0 counter []) hnd
  simpa [runProviders] using h.1

theorem chunksGo_mem_sublist :
    ∀ (fuel : Nat) (l c : List QuestionInput), c ∈ chunksGo 30 fuel l → c.Sublist l := by
  intro fuel
  induction fuel with
  | zero =>
    intro l c hc
    simp [chunksGo] at hc
  | succ f ih =>
    intro l c hc
    rw [chunksGo] at hc
    by_cases hemp : l.isEmpty
    · simp [hemp] at hc
    · simp only [hemp, if_false, Bool.false_eq_true] at hc
      rcases List.mem_cons.mp hc with h1 | h2
      · exact h1 ▸ List.take_sublist 30 l
      · exact (ih (l.drop 30) c h2).trans (List.drop_sublist 30 l)

theorem chunksGo_sum_length :
    ∀ (fuel : Nat) (l : List QuestionInput), l.length ≤ fuel →
      ((chunksGo 30 fuel l).map List.length).sum = l.length := by
  intro fuel
  induction fuel with
  | zero =>
    intro l hl
    have : l = [] := List.length_eq_zero.mp (Nat.le_zero.mp hl)
    subst this
    rfl
  | succ f ih =>
    intro l hl
    rw [chunksGo]
    by_cases hemp : l.isEmpty
    · rw [if_pos hemp]
      have : l = [] := List.isEmpty_iff.mp hemp
      subst this
      rfl
    · rw [if_neg hemp]
      have hle : l.length ≠ 0 := by
        intro h0
        exact hemp (List.isEmpty_iff.mpr (List.length_eq_zero.mp h0))
      have hrec := ih (l.drop 30) (by rw [List.length_drop]; omega)
      simp only [List.map_cons, List.sum_cons, hrec, List.length_take, List.length_drop]
      omega

theorem insertResp_length (r : AIResponse) :
    ∀ (l : List AIResponse), (insertResp r l).length = l.length + 1 := by
  intro l
  induction l with
  | nil => rfl
  | cons x xs ih =>
    rw [insertResp]
    by_cases h : x.index ≤ r.index
    · simp only [h, if_true, List.length_cons, ih]
    · simp only [h, if_false, List.length_cons]

theorem sortByIndex_foldl_length :
    ∀ (l acc : List AIResponse),
      (l.foldl (fun acc2 r => insertResp r acc2) acc).length = acc.length + l.length := by
  intro l
  induction l with
  | nil => intro acc; rfl
  | cons r rest ih =>
    intro acc
    simp only [List.foldl_cons, ih, insertResp_length, List.length_cons]
    omega

theorem sortByIndex_length (l : List AIResponse) : (sortByIndex l).length = l.length := by
  have h := sortByIndex_foldl_length l []
  simpa [sortByIndex] using h

theorem cachePhase_hit_miss_counts (env : OrchEnv) :
    ∀ (Q : List QuestionInput) (acc : List (Nat × CachedAnswerM))
      (unc : List QuestionInput) (h m : Nat),
      (cachePhaseGo env acc unc h m Q).2.2.1 + (cachePhaseGo env acc unc h m Q).2.2.2
        = h + m + Q.length := by
  intro Q
  induction Q with
  | nil =>
    intro acc unc h m
    rfl
  | cons q qs ih =>
    intro acc unc h m
    cases hc : env.cacheLookup q with
    | some a =>
      simp only [cachePhaseGo, hc]
      rw [ih]
      simp only [List.length_cons]
      omega
    | none =>
      simp only [cachePhaseGo, hc]
      rw [ih]
      simp only [List.length_cons]
      omega

theorem cachePhase_unc_misses (env : OrchEnv) :
    ∀ (Q : List QuestionInput) (acc : List (Nat × CachedAnswerM))
      (unc : List QuestionInput) (h m : Nat),
      (cachePhaseGo env acc unc h m Q).2.1.length + m
        = unc.length + (cachePhaseGo env acc unc h m Q).2.2.2 := by
  intro Q
  induction Q with
  | nil =>
    intro acc unc h m
    rfl
  | cons q qs ih =>
    intro acc unc h m
    cases hc : env.cacheLookup q with
    | some a =>
      simp only [cachePhaseGo, hc]
      exact ih _ _ _ _
    | none =>
      simp only [cachePhaseGo, hc]
      have := ih (acc) (unc ++ [q]) h (m + 1)
      simp only [List.length_append, List.length_cons, List.length_nil] at this ⊢
      omega

theorem mapSet_append_of_not_mem (m : List (Nat × CachedAnswerM)) (k : Nat)
    (v : CachedAnswerM) (hk : k ∉ m.map (fun kv => kv.1)) :
    mapSet m k v = m ++ [(k, v)] := by
  unfold mapSet
  rw [if_neg]
  intro hany
  rw [List.any_eq_true] at hany
  obtain ⟨kv, hkv, heq⟩ := hany
  simp only [decide_eq_true_eq] at heq
  exact hk (List.mem_map.mpr ⟨kv, hkv, heq⟩)

theorem cachePhase_map_hits (env : OrchEnv) :
    ∀ (Q : List QuestionInput) (acc : List (Nat × CachedAnswerM))
      (unc : List QuestionInput) (h m : Nat),
      ((acc.map (fun kv => kv.1)) ++ Q.map (fun q => q.index)).Nodup →
      (cachePhaseGo env acc unc h m Q).1.length + h
        = acc.length + (cachePhaseGo env acc unc h m Q).2.2.1 := by
  intro Q
  induction Q with
  | nil =>
    intro acc unc h m _
    rfl
  | cons q qs ih =>
    intro acc unc h m hnd
    cases hc : env.cacheLookup q with
    | some a =>
      simp only [cachePhaseGo, hc]
      have hknotin : q.index ∉ acc.map (fun kv => kv.1) := by
        have hdisj := (List.nodup_append.mp (by simpa using hnd)).2.2
        intro hin
        exact hdisj hin (List.mem_cons_self _ _)
      rw [mapSet_append_of_not_mem acc q.index a hknotin] at *
      have hnd2 : (((acc ++ [(q.index, a)]).map (fun kv => kv.1)) ++
          qs.map (fun q2 => q2.index)).Nodup := by
        simp only [List.map_append, List.map_cons, List.map_nil, List.append_assoc,
          List.cons_append, List.nil_append]
        simpa using hnd
      have := ih (acc ++ [(q.index, a)]) unc (h + 1) m hnd2
      simp only [List.length_append, List.length_cons, List.length_nil] at this ⊢
      omega
    | none =>
      simp only [cachePhaseGo, hc]
      apply ih
      have hsub : ((acc.map (fun kv => kv.1)) ++ qs.map (fun q2 => q2.index)).Sublist
          ((acc.map (fun kv => kv.1)) ++ (q :: qs).map (fun q2 => q2.index)) := by
        apply List.Sublist.append_left
        simp only [List.map_cons]
        exact List.sublist_cons_self _ _
      exact hsub.nodup hnd

theorem cachePhase_unc_nodup (env : OrchEnv) :
    ∀ (Q : List QuestionInput) (acc : List (Nat × CachedAnswerM))
      (unc : List QuestionInput) (h m : Nat),
      ((unc ++ Q).map (fun q => q.index)).Nodup →
      ((cachePhaseGo env acc unc h m Q).2.1.map (fun q => q.index)).Nodup := by
  intro Q
  induction Q with
  | nil =>
    intro acc unc h m hnd
    simpa using hnd
  | cons q qs ih =>
    intro acc unc h m hnd
    cases hc : env.cacheLookup q with
    | some a =>
      simp only [cachePhaseGo, hc]
      apply ih
      have hsub : ((unc ++ qs).map (fun q2 => q2.index)).Sublist
          (((unc ++ q :: qs)).map (fun q2 => q2.index)) := by
        apply List.Sublist.map
        apply List.Sublist.append_left
        exact List.sublist_cons_self _ _
      exact hsub.nodup hnd
    | none =>
      simp only [cachePhaseGo, hc]
      apply ih
      have : unc ++ [q] ++ qs = unc ++ q :: qs := by
        simp
      rw [this]
      exact hnd

theorem chunkFold_conservation (env : OrchEnv) (mr : Nat) (hwf : OrchEnv.wf env) :
    ∀ (cs : List (List QuestionInput)) (st : ChunkLoopState),
      (∀ c ∈ cs, (c.map (fun q => q.index)).Nodup) →
      (cs.foldl (runChunk env mr) st).responses.length +
        (cs.foldl (runChunk env mr) st).failed
        = st.responses.length + st.failed + (cs.map List.length).sum := by
  intro cs
  induction cs with
  | nil =>
    intro st _
    simp
  | cons c rest ih =>
    intro st hnd
    simp only [List.foldl_cons, List.map_cons, List.sum_cons]
    have hcons := runProviders_conservation env mr hwf c st.counter
      (hnd c (List.mem_cons_self _ _))
    have hrec := ih (runChunk env mr st c) (fun c2 hc2 => hnd c2 (List.mem_cons_of_mem _ hc2))
    have hfields :
        (runChunk env mr st c).responses.length
          = st.responses.length + (runProviders env mr
              (FallbackState.mk c [] [] 0 st.counter [])).responses.length ∧
        (runChunk env mr st c).failed
          = st.failed + (runProviders env mr
              (FallbackState.mk c [] [] 0 st.counter [])).remaining.length := by
      constructor
      · simp [runChunk]
      · simp [runChunk]
    omega

theorem solveQuestions_cacheHits_eq (env : OrchEnv) (Q : List QuestionInput)
    (ec : Bool) (mr : Nat) :
    (solveQuestions env Q ec mr).1.cacheHits = (cachePhaseResult env Q ec).2.2.1 := rfl

theorem solveQuestions_cacheMisses_eq (env : OrchEnv) (Q : List QuestionInput)
    (ec : Bool) (mr : Nat) :
    (solveQuestions env Q ec mr).1.cacheMisses = (cachePhaseResult env Q ec).2.2.2 := rfl

theorem solveQuestions_failed_eq (env : OrchEnv) (Q : List QuestionInput)
    (ec : Bool) (mr : Nat) :
    (solveQuestions env Q ec mr).1.failedQuestions =
      ((chunks30 (cachePhaseResult env Q ec).2.1).foldl (runChunk env mr)
        (ChunkLoopState.mk []
          (if 0 < (cachePhaseResult env Q ec).1.length then ["Cache"] else [])
          0 0 0 [])).failed := rfl

theorem solveQuestions_responses_eq (env : OrchEnv) (Q : List QuestionInput)
    (ec : Bool) (mr : Nat) :
    (solveQuestions env Q ec mr).1.responses =
      sortByIndex (((chunks30 (cachePhaseResult env Q ec).2.1).foldl (runChunk env mr)
        (ChunkLoopState.mk []
          (if 0 < (cachePhaseResult env Q ec).1.length then ["Cache"] else [])
          0 0 0 [])).responses ++
        (cachePhaseResult env Q ec).1.map
          (fun kv => AIResponse.mk kv.1 kv.2.correctKey kv.2.explanation)) := rfl

/-- Claim C5: for every question list given to `solveQuestions` (with
pairwise distinct indices, as the pipeline produces, and providers that
answer a subset of the asked indices, as `parseResponse` produces),
`cacheHits + cacheMisses = len(Q)` and
`len(responses) + failedQuestions = len(Q)`. -/
theorem c5_conservation (env : OrchEnv) (Q : List QuestionInput) (ec : Bool)
    (mr : Nat) (hwf : OrchEnv.wf env)
    (hnd : (Q.map (fun q => q.index)).Nodup) :
    (solveQuestions env Q ec mr).1.cacheHits +
      (solveQuestions env Q ec mr).1.cacheMisses = Q.length ∧
    (solveQuestions env Q ec mr).1.responses.length +
      (solveQuestions env Q ec mr).1.failedQuestions = Q.length := by
  have hCP1 : (cachePhaseResult env Q ec).2.2.1 + (cachePhaseResult env Q ec).2.2.2
      = Q.length := by
    cases ec
    · simp [cachePhaseResult]
    · simpa [cachePhaseResult] using cachePhase_hit_miss_counts env Q [] [] 0 0
  have hCPunc_len : (cachePhaseResult env Q ec).2.1.length
      = (cachePhaseResult env Q ec).2.2.2 := by
    cases ec
    · simp [cachePhaseResult]
    · simpa [cachePhaseResult] using cachePhase_unc_misses env Q [] [] 0 0
  have hCPmap_len : (cachePhaseResult env Q ec).1.length
      = (cachePhaseResult env Q ec).2.2.1 := by
    cases ec
    · simp [cachePhaseResult]
    · simpa [cachePhaseResult] using
        cachePhase_map_hits env Q [] [] 0 0 (by simpa using hnd)
  have hCPunc_nodup : ((cachePhaseResult env Q ec).2.1.map (fun q => q.index)).Nodup := by
    cases ec
    · simpa [cachePhaseResult] using hnd
    · simpa [cachePhaseResult] using
        cachePhase_unc_nodup env Q [] [] 0 0 (by simpa using hnd)
  have hchunk_nodup : ∀ c ∈ chunks30 (cachePhaseResult env Q ec).2.1,
      (c.map (fun q => q.index)).Nodup :=
    fun c hc => (List.Sublist.map (fun q => q.index)
      (chunksGo_mem_sublist _ _ c hc)).nodup hCPunc_nodup
  have hsum : ((chunks30 (cachePhaseResult env Q ec).2.1).map List.length).sum
      = (cachePhaseResult env Q ec).2.1.length :=
    chunksGo_sum_length (cachePhaseResult env Q ec).2.1.length
      (cachePhaseResult env Q ec).2.1 le_rfl
  have hfold := chunkFold_conservation env mr hwf
    (chunks30 (cachePhaseResult env Q ec).2.1)
    (ChunkLoopState.mk []
      (if 0 < (cachePhaseResult env Q ec).1.length then ["Cache"] else [])
      0 0 0 []) hchunk_nodup
  constructor
  · rw [solveQuestions_cacheHits_eq, solveQuestions_cacheMisses_eq]
    exact hCP1
  · rw [solveQuestions_responses_eq, solveQuestions_failed_eq, sortByIndex_length,
      List.length_append, List.length_map]
    simp only [List.length_nil] at hfold
    omega

/-- Witness for C5: two distinct-index questions through a concrete
environment (cache miss on everything, providers answering nothing) give
`cacheHits + cacheMisses = 2` and `len(responses) + failedQuestions = 2`. -/
theorem c5_conservation_witness :
    (solveQuestions (OrchEnv.mk (fun _ => none) (fun _ => true)
        (fun _ _ b => SolveOutcome.mk (BatchResultM.mk [] 0 0 b.length) 1))
      [QuestionInput.mk 1 "a" [] "", QuestionInput.mk 2 "b" [] ""] true 2).1.cacheHits +
    (solveQuestions (OrchEnv.mk (fun _ => none) (fun _ => true)
        (fun _ _ b => SolveOutcome.mk (BatchResultM.mk [] 0 0 b.length) 1))
      [QuestionInput.mk 1 "a" [] "", QuestionInput.mk 2 "b" [] ""] true 2).1.cacheMisses = 2 ∧
    (solveQuestions (OrchEnv.mk (fun _ => none) (fun _ => true)
        (fun _ _ b => SolveOutcome.mk (BatchResultM.mk [] 0 0 b.length) 1))
      [QuestionInput.mk 1 "a" [] "", QuestionInput.mk 2 "b" [] ""] true 2).1.responses.length +
    (solveQuestions (OrchEnv.mk (fun _ => none) (fun _ => true)
        (fun _ _ b => SolveOutcome.mk (BatchResultM.mk [] 0 0 b.length) 1))
      [QuestionInput.mk 1 "a" [] "", QuestionInput.mk 2 "b" [] ""] true 2).1.failedQuestions = 2 := by
  exact c5_conservation (OrchEnv.mk (fun _ => none) (fun _ => true)
      (fun _ _ b => SolveOutcome.mk (BatchResultM.mk [] 0 0 b.length) 1))
    [QuestionInput.mk 1 "a" [] "", QuestionInput.mk 2 "b" [] ""] true 2
    (fun k p b => by simp)
    (by decide)
